import Mathlib

/-!
Verification of the change-detection and deadline-extraction pipeline of
`monitor.py` (monitor-editais).  The Python source is shallowly embedded:
text is `List Char`, Python `date` objects are `PDate` triples validated by
`mkDate`, and the three `re.finditer` passes of `parse_deadlines` are
encoded as deterministic left-to-right scanners.  For the concrete patterns
in the source, Python regex backtracking never succeeds where the greedy
parse fails (every fallback would place a digit where a separator or space
is required), so the greedy scanners below compute exactly the `finditer`
match sequence.  Character classes `\d` and `\s` are modelled on their
ASCII/Latin-1 behaviour, which covers every character the source's patterns
and keyword lists mention.
-/

namespace Monitor

/-- Calendar date as stored by Python `datetime.date`: year, month, day. -/
structure PDate where
  y : Nat
  m : Nat
  d : Nat
deriving DecidableEq, Repr

/-- Python `date` order is lexicographic on (year, month, day); this is the
strict version used by `deadline < today` and by `max`. -/
def dateLt (a b : PDate) : Prop :=
  a.y < b.y ∨ (a.y = b.y ∧ (a.m < b.m ∨ (a.m = b.m ∧ a.d < b.d)))

instance (a b : PDate) : Decidable (dateLt a b) := by
  unfold dateLt; infer_instance

/-- Leap-year rule used by Python `datetime` (proleptic Gregorian). -/
def isLeap (y : Nat) : Prop := y % 4 = 0 ∧ (y % 100 ≠ 0 ∨ y % 400 = 0)

instance (y : Nat) : Decidable (isLeap y) := by
  unfold isLeap; infer_instance

/-- Length of month `m` in year `y`; 0 for out-of-range months so that the
validity check below rejects them. -/
def daysInMonth (y m : Nat) : Nat :=
  if m = 1 then 31 else if m = 2 then (if isLeap y then 29 else 28)
  else if m = 3 then 31 else if m = 4 then 30 else if m = 5 then 31
  else if m = 6 then 30 else if m = 7 then 31 else if m = 8 then 31
  else if m = 9 then 30 else if m = 10 then 31 else if m = 11 then 30
  else if m = 12 then 31 else 0

/-- Validity of a (year, month, day) triple for Python `date(y, m, d)`:
the constructor raises `ValueError` outside these bounds. -/
def validDate (y m d : Nat) : Prop :=
  1 ≤ y ∧ y ≤ 9999 ∧ 1 ≤ m ∧ m ≤ 12 ∧ 1 ≤ d ∧ d ≤ daysInMonth y m

instance (y m d : Nat) : Decidable (validDate y m d) := by
  unfold validDate; infer_instance

/-- Python `date(y, m, d)` wrapped in `try/except ValueError`: `some` on a
real calendar date, `none` when the triple is invalid (silently dropped). -/
def mkDate (y m d : Nat) : Option PDate :=
  if validDate y m d then some ⟨y, m, d⟩ else none

/-- ASCII decimal digit, the characters matched by `\d` in the source's
patterns (all dates the patterns target are written with ASCII digits). -/
def isDigitC (c : Char) : Bool := '0' ≤ c && c ≤ '9'

/-- The three numeric date separators `[\/\.-]` of the source's patterns. -/
def isSepC (c : Char) : Bool := c = '/' || c = '.' || c = '-'

/-- Whitespace as matched by `\s` (ASCII whitespace plus the Latin-1
NEL/NBSP characters Python's `re` also accepts). -/
def isSpaceC (c : Char) : Bool :=
  c = ' ' || c = '\t' || c = '\n' || c = '\x0b' || c = '\x0c' || c = '\r'
    || c = '\x85' || c = '\xa0'

/-- Characters of the written-out month-name class `[a-zçãõéêíóôú]`. -/
def isMonthC (c : Char) : Bool :=
  ('a' ≤ c && c ≤ 'z') || c = 'ç' || c = 'ã' || c = 'õ' || c = 'é'
    || c = 'ê' || c = 'í' || c = 'ó' || c = 'ô' || c = 'ú'

/-- Lower-casing of one character as Python `str.lower` acts on the
ASCII and Latin-1 letters relevant to the source (the keyword lists and
month names are Latin-1; other characters are left unchanged). -/
def pyLower (c : Char) : Char :=
  if 'A' ≤ c ∧ c ≤ 'Z' then Char.ofNat (c.toNat + 32)
  else if 0xC0 ≤ c.toNat ∧ c.toNat ≤ 0xDE ∧ c.toNat ≠ 0xD7 then
    Char.ofNat (c.toNat + 32)
  else c

/-- Numeric value of a digit string, as Python `int` reads it. -/
def digitsVal (ds : List Char) : Nat :=
  ds.foldl (fun a c => a * 10 + (c.toNat - 48)) 0

/-- Match of the numeric-triple pattern `(\d{1,2})[\/\.-](\d{1,2})[\/\.-](\d{2,4})`
at the head of the text, returning ((day, month, year), consumed length).
Greedy matching is exact here: every regex fallback would place a digit
where a separator is required, so a digit run of length 3 or more at the
day/month position fails outright, and the year takes the first `min 4`
digits of its run with no constraint after it. -/
def parseNumAt (cs : List Char) : Option ((Nat × Nat × Nat) × Nat) :=
  let ds := cs.takeWhile isDigitC
  if ds.length = 0 ∨ 2 < ds.length then none else
  match cs.drop ds.length with
  | [] => none
  | s1 :: r2 =>
    if ¬ (isSepC s1 = true) then none else
    let ms := r2.takeWhile isDigitC
    if ms.length = 0 ∨ 2 < ms.length then none else
    match r2.drop ms.length with
    | [] => none
    | s2 :: r3 =>
      if ¬ (isSepC s2 = true) then none else
      let ys := r3.takeWhile isDigitC
      if ys.length < 2 then none else
      some ((digitsVal ds, digitsVal ms, digitsVal (ys.take 4)),
            ds.length + 1 + ms.length + 1 + min ys.length 4)

/-- One step of `re.finditer` for the unanchored numeric pattern: scan left
to right, emit each match and continue after it (non-overlapping), else
advance one character.  `fuel` is the length of the text, enough because a
match always consumes at least one character. -/
def scanNums : Nat → List Char → List (Nat × Nat × Nat)
  | 0, _ => []
  | _ + 1, [] => []
  | fuel + 1, c :: cs =>
    match parseNumAt (c :: cs) with
    | some (t, k) => t :: scanNums fuel ((c :: cs).drop k)
    | none => scanNums fuel cs

/-- The deadline keyword alternation
`(até|prazo|inscri|submiss|envio|entrega|encerr|data\s*limite|deadline)`
matched at the head of the text, returning the matched length.  At any
position at most one alternative can match (their first two letters
differ), so ordered trial is exact. -/
def kwMatchAt (cs : List Char) : Option Nat :=
  if "até".toList.isPrefixOf cs then some 3
  else if "prazo".toList.isPrefixOf cs then some 5
  else if "inscri".toList.isPrefixOf cs then some 6
  else if "submiss".toList.isPrefixOf cs then some 7
  else if "envio".toList.isPrefixOf cs then some 5
  else if "entrega".toList.isPrefixOf cs then some 7
  else if "encerr".toList.isPrefixOf cs then some 6
  else if "data".toList.isPrefixOf cs then
    let r := cs.drop 4
    let sp := r.takeWhile isSpaceC
    if "limite".toList.isPrefixOf (r.drop sp.length) then
      some (4 + sp.length + 6)
    else none
  else if "deadline".toList.isPrefixOf cs then some 8
  else none

/-- Match of the keyword-anchored numeric pattern
`kw[^0-9]{0,60}(\d{1,2})[\/\.-](\d{1,2})[\/\.-](\d{2,4})` at the head of
the text.  The `[^0-9]{0,60}` gap cannot contain a digit, so it must run
exactly to the first digit after the keyword (failing if that distance
exceeds 60), and the numeric triple is then parsed there. -/
def parseKwNumAt (cs : List Char) : Option ((Nat × Nat × Nat) × Nat) :=
  match kwMatchAt cs with
  | none => none
  | some kl =>
    let r := cs.drop kl
    let gap := r.takeWhile (fun c => ¬ (isDigitC c = true))
    if 60 < gap.length then none else
    match parseNumAt (r.drop gap.length) with
    | none => none
    | some (t, k) => some (t, kl + gap.length + k)

/-- `re.finditer` for the keyword-anchored numeric pattern. -/
def scanKwNums : Nat → List Char → List (Nat × Nat × Nat)
  | 0, _ => []
  | _ + 1, [] => []
  | fuel + 1, c :: cs =>
    match parseKwNumAt (c :: cs) with
    | some (t, k) => t :: scanKwNums fuel ((c :: cs).drop k)
    | none => scanKwNums fuel cs

/-- Sub-pattern `(\d{1,2})` followed by a non-digit requirement: take the
digit run (greedily; a run of 3 or more digits can never match because the
fallback would put a digit where the next pattern element needs a
non-digit), returning (run, rest). -/
def digitRun12 (cs : List Char) : Option (List Char × List Char) :=
  let ds := cs.takeWhile isDigitC
  if ds.length = 0 ∨ 2 < ds.length then none else some (ds, cs.drop ds.length)

/-- Sub-pattern `\s+`: a nonempty greedy whitespace run. -/
def spaceRun1 (cs : List Char) : Option (List Char × List Char) :=
  let sp := cs.takeWhile isSpaceC
  if sp.length = 0 then none else some (sp, cs.drop sp.length)

/-- Sub-pattern `[a-zçãõéêíóôú]+`: a nonempty greedy month-letter run. -/
def monthRun1 (cs : List Char) : Option (List Char × List Char) :=
  let mn := cs.takeWhile isMonthC
  if mn.length = 0 then none else some (mn, cs.drop mn.length)

/-- Sub-pattern: the literal `de`. -/
def litDe (cs : List Char) : Option (List Char) :=
  if "de".toList.isPrefixOf cs then some (cs.drop 2) else none

/-- Sub-pattern `(\d{4})`: exactly four digits, consuming four characters
of a digit run of length at least four. -/
def digitRun4 (cs : List Char) : Option (List Char × List Char) :=
  let ys := cs.takeWhile isDigitC
  if ys.length < 4 then none else some (ys.take 4, cs.drop 4)

/-- Match of the written-out date pattern
`kw[^0-9]{0,60}(\d{1,2})\s+de\s+([a-zçãõéêíóôú]+)\s+de\s+(\d{4})` at the
head of the text, returning ((day, month-name, year), consumed length).
As above, greedy runs are exact for this pattern. -/
def parseExtAt (cs : List Char) : Option ((Nat × List Char × Nat) × Nat) :=
  match kwMatchAt cs with
  | none => none
  | some kl =>
    let gap := (cs.drop kl).takeWhile (fun c => ¬ (isDigitC c = true))
    if 60 < gap.length then none else
    match digitRun12 ((cs.drop kl).drop gap.length) with
    | none => none
    | some (day, r2) =>
    match spaceRun1 r2 with
    | none => none
    | some (sp1, r3) =>
    match litDe r3 with
    | none => none
    | some r4 =>
    match spaceRun1 r4 with
    | none => none
    | some (sp2, r5) =>
    match monthRun1 r5 with
    | none => none
    | some (mon, r6) =>
    match spaceRun1 r6 with
    | none => none
    | some (sp3, r7) =>
    match litDe r7 with
    | none => none
    | some r8 =>
    match spaceRun1 r8 with
    | none => none
    | some (sp4, r9) =>
    match digitRun4 r9 with
    | none => none
    | some (yr, _) =>
      some ((digitsVal day, mon, digitsVal yr),
            kl + gap.length + day.length + sp1.length + 2 + sp2.length
              + mon.length + sp3.length + 2 + sp4.length + 4)

/-- `re.finditer` for the written-out date pattern. -/
def scanExts : Nat → List Char → List (Nat × List Char × Nat)
  | 0, _ => []
  | _ + 1, [] => []
  | fuel + 1, c :: cs =>
    match parseExtAt (c :: cs) with
    | some (t, k) => t :: scanExts fuel ((c :: cs).drop k)
    | none => scanExts fuel cs

/-- The `PT_MONTHS` table: Portuguese month names (with the unaccented
variant "marco") mapped to month numbers; `.get` returns `None` off-table. -/
def ptMonth (s : List Char) : Option Nat :=
  if s = "janeiro".toList then some 1
  else if s = "fevereiro".toList then some 2
  else if s = "março".toList then some 3
  else if s = "marco".toList then some 3
  else if s = "abril".toList then some 4
  else if s = "maio".toList then some 5
  else if s = "junho".toList then some 6
  else if s = "julho".toList then some 7
  else if s = "agosto".toList then some 8
  else if s = "setembro".toList then some 9
  else if s = "outubro".toList then some 10
  else if s = "novembro".toList then some 11
  else if s = "dezembro".toList then some 12
  else none

/-- Two-digit years are normalised by adding 2000 (`if year_i < 100`). -/
def adjY (y : Nat) : Nat := if y < 100 then y + 2000 else y

/-- Dates produced by a list of numeric (day, month, year) matches: year
adjustment, then `date(...)` with invalid triples silently dropped. -/
def numDates (ts : List (Nat × Nat × Nat)) : List PDate :=
  ts.filterMap (fun t => mkDate (adjY t.2.2) t.2.1 t.1)

/-- Dates produced by written-out matches: month-name lookup in
`PT_MONTHS` (a miss skips the match), then `date(...)` as above. -/
def extDates (ts : List (Nat × List Char × Nat)) : List PDate :=
  ts.filterMap (fun t => (ptMonth t.2.1).bind (fun m => mkDate t.2.2 m t.1))

/-- `parse_deadlines(text)`: lower-case the text, run the three pattern
passes over all of it, and return all valid dates found, in pass order. -/
def parse_deadlines (text : List Char) : List PDate :=
  let t := text.map pyLower
  numDates (scanKwNums t.length t)
    ++ numDates (scanNums t.length t)
    ++ extDates (scanExts t.length t)

/-- `pick_deadline(text)`: the latest (maximum) extracted date, or `None`
when no date was found. -/
def pick_deadline (text : List Char) : Option PDate :=
  match parse_deadlines text with
  | [] => none
  | d :: ds => some (ds.foldl (fun a x => if dateLt a x then x else a) d)

/-- `is_expired(deadline)` with the ambient `datetime.now().date()` made an
explicit `today` parameter: true exactly when `deadline < today`. -/
def is_expired (deadline today : PDate) : Bool := decide (dateLt deadline today)

/-- UTF-8 encoding of one character (`str.encode("utf-8")`), as byte
values. -/
def utf8Bytes (c : Char) : List Nat :=
  let n := c.toNat
  if n < 128 then [n]
  else if n < 2048 then [192 + n / 64, 128 + n % 64]
  else if n < 65536 then [224 + n / 4096, 128 + (n / 64) % 64, 128 + n % 64]
  else [240 + n / 262144, 128 + (n / 4096) % 64, 128 + (n / 64) % 64, 128 + n % 64]

/-- UTF-8 encoding of a text. -/
def encodeUtf8 (s : List Char) : List Nat :=
  s.foldr (fun c acc => utf8Bytes c ++ acc) []

/-- A 64-bit big-endian length field (the tail of SHA-256 padding). -/
def be64 (n : Nat) : List Nat :=
  [n / 72057594037927936 % 256, n / 281474976710656 % 256,
   n / 1099511627776 % 256, n / 4294967296 % 256,
   n / 16777216 % 256, n / 65536 % 256, n / 256 % 256, n % 256]

/-- SHA-256 padding: append `0x80`, zeros to 56 mod 64, and the bit length. -/
def shaPad (msg : List Nat) : List Nat :=
  msg ++ 128 :: List.replicate ((119 - msg.length % 64) % 64) 0
      ++ be64 (8 * msg.length)

/-- Big-endian 32-bit words from bytes. -/
def bytesToWords : List Nat → List Nat
  | b0 :: b1 :: b2 :: b3 :: rest =>
    (b0 * 16777216 + b1 * 65536 + b2 * 256 + b3) :: bytesToWords rest
  | _ => []

/-- 64-byte blocks of the padded message; the fuel bounds the block count. -/
def shaBlocksF : Nat → List Nat → List (List Nat)
  | 0, _ => []
  | _, [] => []
  | n + 1, b :: bs => (b :: bs).take 64 :: shaBlocksF n ((b :: bs).drop 64)

/-- Right rotation of a 32-bit word. -/
def rotr (n x : Nat) : Nat := (x % 2 ^ n) * 2 ^ (32 - n) + x / 2 ^ n

/-- The SHA-256 round constants. -/
def K256 : List Nat :=
  [1116352408, 1899447441, 3049323471, 3921009573, 961987163, 1508970993,
   2453635748, 2870763221, 3624381080, 310598401, 607225278, 1426881987,
   1925078388, 2162078206, 2614888103, 3248222580, 3835390401, 4022224774,
   264347078, 604807628, 770255983, 1249150122, 1555081692, 1996064986,
   2554220882, 2821834349, 2952996808, 3210313671, 3336571891, 3584528711,
   113926993, 338241895, 666307205, 773529912, 1294757372, 1396182291,
   1695183700, 1986661051, 2177026350, 2456956037, 2730485921, 2820302411,
   3259730800, 3345764771, 3516065817, 3600352804, 4094571909, 275423344,
   430227734, 506948616, 659060556, 883997877, 958139571, 1322822218,
   1537002063, 1747873779, 1955562222, 2024104815, 2227730452, 2361852424,
   2428436474, 2756734187, 3204031479, 3329325298]

/-- The SHA-256 initial hash value. -/
def H256 : List Nat :=
  [1779033703, 3144134277, 1013904242, 2773480762, 1359893119, 2600822924,
   528734635, 1541459225]

/-- Message-schedule extension `W[i] = W[i-16] + s0(W[i-15]) + W[i-7] + s1(W[i-2])`,
appending one word per fuel step. -/
def extendW : Nat → List Nat → List Nat
  | 0, w => w
  | n + 1, w =>
    let l := w.length
    let w15 := w.getD (l - 15) 0
    let w2 := w.getD (l - 2) 0
    let w16 := w.getD (l - 16) 0
    let w7 := w.getD (l - 7) 0
    let s0 := rotr 7 w15 ^^^ rotr 18 w15 ^^^ (w15 >>> 3)
    let s1 := rotr 17 w2 ^^^ rotr 19 w2 ^^^ (w2 >>> 10)
    extendW n (w ++ [(w16 + s0 + w7 + s1) % 4294967296])

/-- One SHA-256 compression round on the eight-word state. -/
def shaRound (kw : Nat × Nat) (st : List Nat) : List Nat :=
  match st with
  | [a, b, c, d, e, f, g, h] =>
    let S1 := rotr 6 e ^^^ rotr 11 e ^^^ rotr 25 e
    let ch := (e &&& f) ^^^ ((4294967295 - e) &&& g)
    let temp1 := (h + S1 + ch + kw.1 + kw.2) % 4294967296
    let S0 := rotr 2 a ^^^ rotr 13 a ^^^ rotr 22 a
    let maj := (a &&& b) ^^^ (a &&& c) ^^^ (b &&& c)
    let temp2 := (S0 + maj) % 4294967296
    [(temp1 + temp2) % 4294967296, a, b, c, (d + temp1) % 4294967296, e, f, g]
  | st => st

/-- The 64 compression rounds over the zipped (K, W) pairs. -/
def shaRoundsGo : List (Nat × Nat) → List Nat → List Nat
  | [], st => st
  | kw :: rest, st => shaRoundsGo rest (shaRound kw st)

/-- Process one 64-byte block: schedule, 64 rounds, feed-forward add. -/
def processBlock (st : List Nat) (block : List Nat) : List Nat :=
  let w := extendW 48 (bytesToWords block)
  let fin := shaRoundsGo (K256.zip w) st
  (st.zip fin).map (fun p => (p.1 + p.2) % 4294967296)

/-- Fold of `processBlock` over all blocks. -/
def shaRunBlocks : List (List Nat) → List Nat → List Nat
  | [], st => st
  | b :: bs, st => shaRunBlocks bs (processBlock st b)

/-- The eight final hash words of SHA-256 over a text's UTF-8 bytes. -/
def digestWords (s : List Char) : List Nat :=
  shaRunBlocks (shaBlocksF (shaPad (encodeUtf8 s)).length (shaPad (encodeUtf8 s))) H256

/-- The 256-bit digest as one number (big-endian word order). -/
def digestNat (s : List Char) : Nat :=
  (digestWords s).foldl (fun a w => a * 4294967296 + w) 0

/-- One lowercase hex digit. -/
def hexChar (n : Nat) : Char :=
  if n < 10 then Char.ofNat (48 + n) else Char.ofNat (87 + n)

/-- Big-endian fixed-width lowercase hex. -/
def hexN : Nat → Nat → List Char
  | 0, _ => []
  | w + 1, n => hexN w (n / 16) ++ [hexChar (n % 16)]

/-- `sha(text)`: the lowercase hex digest of SHA-256 over the text's UTF-8
encoding (`hashlib.sha256(text.encode("utf-8")).hexdigest()`). -/
def sha (s : List Char) : List Char := hexN 64 (digestNat s)

/-- The configured candidate keywords (`keywords = [...]` in `main`). -/
def keywords : List (List Char) :=
  ["edital".toList, "chamamento".toList, "seleção".toList, "oportunidade".toList,
   "retificação".toList, "prorrogação".toList, "inscrição".toList, "inscrições".toList]

/-- Python `k in s`: `k` occurs in `s` as a contiguous substring. -/
def isSubstr (pat : List Char) : List Char → Bool
  | [] => pat.isPrefixOf []
  | c :: cs => pat.isPrefixOf (c :: cs) || isSubstr pat cs

/-- The selector's per-link test: some keyword occurs in the lower-cased
label or in the lower-cased URL
(`any(k in t.lower() for k in keywords) or any(k in h.lower() for k in keywords)`). -/
def linkMatch (link : List Char × List Char) : Bool :=
  keywords.any (fun k => isSubstr k (link.1.map pyLower))
    || keywords.any (fun k => isSubstr k (link.2.map pyLower))

/-- The Candidate Selector of `main`: keep the links passing `linkMatch`;
if none does (`if not candidates`), fall back to the first 10 links
(`links[:10]`). -/
def select (links : List (List Char × List Char)) : List (List Char × List Char) :=
  let candidates := links.filter linkMatch
  if candidates = [] then links.take 10 else candidates

/-- A Python exception as the orchestrator observes it: the class name
(`type(e).__name__`) and the message (`str(e)`). -/
structure PyErr where
  typeName : List Char
  msg : List Char

/-- One entry of `sources.json`. -/
structure Source where
  name : List Char
  url : List Char

/-- One value of the `seen` dict: the JSON object written per source.
Fields are optional exactly as `dict.get` reads them. -/
structure SeenRecord where
  fingerprint : Option (List Char)
  candidates_sig : Option (List Char)
  checked_at : Option (List Char)

/-- The collaborators of `main`: page fetch (which can raise), link
extraction, HTML-to-text cleaning, JSON serialisation of the candidate
list, and the three ambient clock reads. -/
structure Env where
  fetchPage : List Char → Except PyErr (List Char)
  extractLinks : List Char → List Char → List (List Char × List Char)
  cleanText : List Char → List Char
  jsonDumps : List (List Char × List Char) → List Char
  today : PDate
  nowStr : List Char
  nowIso : List Char

/-- `seen.get(url)` on the assoc-list model of the Python dict. -/
def getSeen (seen : List (List Char × SeenRecord)) (url : List Char) :
    Option SeenRecord :=
  match seen with
  | [] => none
  | (k, v) :: rest => if k = url then some v else getSeen rest url

/-- `seen.get(url, {}).get("fingerprint")`. -/
def getFp (seen : List (List Char × SeenRecord)) (url : List Char) :
    Option (List Char) :=
  match getSeen seen url with
  | none => none
  | some r => r.fingerprint

/-- `seen.get(url, {}).get("candidates_sig")`. -/
def getSig (seen : List (List Char × SeenRecord)) (url : List Char) :
    Option (List Char) :=
  match getSeen seen url with
  | none => none
  | some r => r.candidates_sig

/-- `seen[url] = rec`: in-place overwrite, or append for a new key. -/
def setSeen (seen : List (List Char × SeenRecord)) (url : List Char)
    (rec : SeenRecord) : List (List Char × SeenRecord) :=
  match seen with
  | [] => [(url, rec)]
  | (k, v) :: rest =>
    if k = url then (k, rec) :: rest else (k, v) :: setSeen rest url rec

/-- Decimal digits of a number (the fuel bounds the digit count). -/
def natToStrGo : Nat → Nat → List Char
  | 0, _ => []
  | f + 1, n =>
    if n < 10 then [Char.ofNat (48 + n)]
    else natToStrGo f (n / 10) ++ [Char.ofNat (48 + n % 10)]

/-- Python `str` of a natural number. -/
def natToStr (n : Nat) : List Char := natToStrGo (n + 1) n

/-- Two-digit zero padding (`%d`, `%m`). -/
def pad2 (n : Nat) : List Char := if n < 10 then '0' :: natToStr n else natToStr n

/-- Four-digit zero padding (`%Y`). -/
def pad4 (n : Nat) : List Char :=
  if n < 10 then '0':: '0':: '0':: natToStr n
  else if n < 100 then '0':: '0':: natToStr n
  else if n < 1000 then '0' :: natToStr n
  else natToStr n

/-- `deadline.strftime("%d/%m/%Y")`. -/
def fmtDate (d : PDate) : List Char :=
  pad2 d.d ++ '/' :: (pad2 d.m ++ '/' :: pad4 d.y)

/-- A report item `(source name, title, link)` of `new_items`. -/
abbrev Item : Type := List Char × List Char × List Char

/-- One candidate link's inner `try` body: fetch the detail page, extract
a deadline, and either skip it as expired (counted), or produce the item;
a fetch error still produces an item carrying the error. -/
def processCandidate (env : Env) (name : List Char)
    (tl : List Char × List Char) : Option Item × Nat :=
  match env.fetchPage tl.2 with
  | .error e =>
    (some (name, tl.1 ++ " (⚠️ erro ao ler detalhes)".toList,
      tl.2 ++ " | ".toList ++ e.typeName ++ ": ".toList ++ e.msg), 0)
  | .ok detailHtml =>
    match pick_deadline (env.cleanText detailHtml) with
    | some dl =>
      if is_expired dl env.today then (none, 1)
      else (some (name, tl.1 ++ " (prazo: ".toList ++ fmtDate dl ++ ")".toList,
        tl.2), 0)
    | none => (some (name, tl.1 ++ " (⚠️ sem prazo detectado)".toList, tl.2), 0)

/-- The loop over `candidates[:8]`: collected items and the expired-skip
count. -/
def processCandidates (env : Env) (name : List Char) :
    List (List Char × List Char) → List Item × Nat
  | [] => ([], 0)
  | c :: rest =>
    match processCandidate env name c, processCandidates env name rest with
    | (some i, sk), (its, sks) => (i :: its, sk + sks)
    | (none, sk), (its, sks) => (its, sk + sks)

/-- The item `main` appends when a source-level exception is caught. -/
def sourceErrItem (s : Source) (e : PyErr) : Item :=
  (s.name, "⚠️ Erro ao verificar fonte".toList,
    s.url ++ " | ".toList ++ e.typeName ++ ": ".toList ++ e.msg)

/-- One iteration of the source loop: the whole per-source `try` body,
returning the updated `seen`, the items appended and the expired-skip
count. -/
def processSource (env : Env) (seen : List (List Char × SeenRecord))
    (s : Source) : List (List Char × SeenRecord) × List Item × Nat :=
  match env.fetchPage s.url with
  | .error e => (seen, [sourceErrItem s e], 0)
  | .ok html =>
    if getFp seen s.url = some (sha html) then (seen, [], 0)
    else if getSig seen s.url
        = some (sha (env.jsonDumps (select (env.extractLinks html s.url)))) then
      (setSeen seen s.url
        ⟨some (sha html),
         some (sha (env.jsonDumps (select (env.extractLinks html s.url)))),
         some env.nowIso⟩, [], 0)
    else
      (setSeen seen s.url
        ⟨some (sha html),
         some (sha (env.jsonDumps (select (env.extractLinks html s.url)))),
         some env.nowIso⟩,
       (processCandidates env s.name
         ((select (env.extractLinks html s.url)).take 8)).1,
       (processCandidates env s.name
         ((select (env.extractLinks html s.url)).take 8)).2)

/-- The full source loop, accumulating `new_items` and `skipped_expired`
across the sources in order. -/
def runSources (env : Env) :
    List Source → List (List Char × SeenRecord) →
      List (List Char × SeenRecord) × List Item × Nat
  | [], seen => (seen, [], 0)
  | s :: rest, seen =>
    match processSource env seen s with
    | (seen1, items1, sk1) =>
      match runSources env rest seen1 with
      | (seen2, items2, sk2) => (seen2, items1 ++ items2, sk1 + sk2)

/-- One line of the digest (`f"• {src}: {title}\n  {link}"`). -/
def itemLine (it : Item) : List Char :=
  "• ".toList ++ it.1 ++ ": ".toList ++ it.2.1 ++ '\n' :: ' ' :: ' ' :: it.2.2

/-- `"\n".join(msg_lines)`. -/
def joinNL : List (List Char) → List Char
  | [] => []
  | [x] => x
  | x :: rest => x ++ '\n' :: joinNL rest

/-- The findings digest: header, blank line, the first 20 items, and the
expired-count footer when the counter is nonzero. -/
def digestMsg (env : Env) (items : List Item) (skipped : Nat) : List Char :=
  joinNL (("🔎 Novidades detectadas (".toList ++ env.nowStr ++ ")".toList)
    :: [] :: ((items.take 20).map itemLine
      ++ (if skipped ≠ 0 then
            [[], "🧹 Filtrados por prazo vencido: ".toList ++ natToStr skipped]
          else [])))

/-- The heartbeat message, with the expired-count suffix when nonzero. -/
def heartbeatMsg (env : Env) (skipped : Nat) : List Char :=
  "✅ Monitor rodou (".toList ++ env.nowStr
    ++ ") e não encontrou novidades nas fontes.".toList
    ++ (if skipped ≠ 0 then " | filtrados vencidos: ".toList ++ natToStr skipped
        else [])

/-- `main`, with persistence elided: the final `seen` and the list of
outbound notifications attempted (`tg_send` calls). -/
def mainRun (env : Env) (sources : List Source)
    (seen0 : List (List Char × SeenRecord)) :
    List (List Char × SeenRecord) × List (List Char) :=
  ((runSources env sources seen0).1,
   [if (runSources env sources seen0).2.1 = []
    then heartbeatMsg env (runSources env sources seen0).2.2
    else digestMsg env (runSources env sources seen0).2.1
      (runSources env sources seen0).2.2])

/-! ### Basic list and order lemmas -/

theorem takeWhile_cons_pos (p : Char → Bool) (c : Char) (l : List Char)
    (h : p c = true) : (c :: l).takeWhile p = c :: l.takeWhile p := by
  simp [List.takeWhile_cons, h]

theorem takeWhile_cons_neg (p : Char → Bool) (c : Char) (l : List Char)
    (h : p c = false) : (c :: l).takeWhile p = [] := by
  simp [List.takeWhile_cons, h]

theorem takeWhile_length_le (p : Char → Bool) (l : List Char) :
    (l.takeWhile p).length ≤ l.length := by
  induction l with
  | nil => simp
  | cons c cs ih =>
    rw [List.takeWhile_cons]
    split
    · simp only [List.length_cons]; omega
    · simp

/-- Non-strict version of the Python date order. -/
def dateLe (a b : PDate) : Prop := dateLt a b ∨ a = b

theorem dateLt_trans {a b c : PDate} (h1 : dateLt a b) (h2 : dateLt b c) :
    dateLt a c := by
  obtain ⟨x1, x2, x3⟩ := a; obtain ⟨y1, y2, y3⟩ := b; obtain ⟨z1, z2, z3⟩ := c
  simp only [dateLt] at *; omega

theorem dateLt_total (a b : PDate) : dateLt a b ∨ dateLt b a ∨ a = b := by
  obtain ⟨x1, x2, x3⟩ := a; obtain ⟨y1, y2, y3⟩ := b
  simp only [dateLt, PDate.mk.injEq]; omega

theorem dateLe_trans {a b c : PDate} (h1 : dateLe a b) (h2 : dateLe b c) :
    dateLe a c := by
  rcases h1 with h1 | rfl
  · rcases h2 with h2 | rfl
    · exact Or.inl (dateLt_trans h1 h2)
    · exact Or.inl h1
  · exact h2

theorem dateLe_step_left (a d : PDate) :
    dateLe a (if dateLt a d then d else a) := by
  split
  · exact Or.inl (by assumption)
  · exact Or.inr rfl

theorem dateLe_step_right (a d : PDate) :
    dateLe d (if dateLt a d then d else a) := by
  split
  · exact Or.inr rfl
  · rcases dateLt_total a d with h | h | h
    · exact absurd h (by assumption)
    · exact Or.inl h
    · exact Or.inr h.symm

/-- The fold computing Python `max` over a nonempty date list yields an
element of the list that bounds every element from above. -/
theorem foldlMax_spec (ds : List PDate) (a : PDate) :
    (ds.foldl (fun x y => if dateLt x y then y else x) a = a
      ∨ ds.foldl (fun x y => if dateLt x y then y else x) a ∈ ds)
    ∧ dateLe a (ds.foldl (fun x y => if dateLt x y then y else x) a)
    ∧ ∀ e ∈ ds, dateLe e (ds.foldl (fun x y => if dateLt x y then y else x) a) := by
  induction ds generalizing a with
  | nil => exact ⟨Or.inl rfl, Or.inr rfl, by simp⟩
  | cons d ds ih =>
    obtain ⟨h1, h2, h3⟩ := ih (if dateLt a d then d else a)
    refine ⟨?_, ?_, ?_⟩
    · simp only [List.foldl_cons]
      rcases h1 with h1 | h1
      · rw [h1]
        split
        · exact Or.inr (List.mem_cons_self _ _)
        · exact Or.inl rfl
      · exact Or.inr (List.mem_cons_of_mem _ h1)
    · simp only [List.foldl_cons]
      exact dateLe_trans (dateLe_step_left a d) h2
    · intro e he
      simp only [List.foldl_cons]
      rcases List.mem_cons.mp he with rfl | he
      · exact dateLe_trans (dateLe_step_right a e) h2
      · exact h3 e he

/-! ### Validity of every extracted date -/

theorem mkDate_valid {y m d : Nat} {dd : PDate} (h : mkDate y m d = some dd) :
    validDate dd.y dd.m dd.d := by
  unfold mkDate at h
  split at h
  · cases h; assumption
  · cases h

/-- Every date in `parse_deadlines` passed the `date(...)` constructor, so
it is a real calendar date: invalid day/month triples are dropped. -/
theorem parse_deadlines_valid (t : List Char) :
    ∀ d ∈ parse_deadlines t, validDate d.y d.m d.d := by
  intro d hd
  simp only [parse_deadlines, numDates, extDates] at hd
  rcases List.mem_append.mp hd with hd | hd
  · rcases List.mem_append.mp hd with hd | hd <;>
    · obtain ⟨a, _, ha⟩ := List.mem_filterMap.mp hd
      exact mkDate_valid ha
  · obtain ⟨a, _, ha⟩ := List.mem_filterMap.mp hd
    rcases Option.bind_eq_some.mp ha with ⟨m, _, hm⟩
    exact mkDate_valid hm

/-! ### Span structure of a numeric-triple match -/

theorem takeWhile_append_rest (p : Char → Bool) (cs : List Char) :
    cs.takeWhile p ++ cs.drop (cs.takeWhile p).length = cs := by
  conv_rhs => rw [← List.take_append_drop (cs.takeWhile p).length cs]
  congr 1
  exact List.prefix_iff_eq_take.mp (List.takeWhile_prefix p)

/-- A successful numeric-triple match consumes at least one and at most all
characters, and every consumed character is a digit or a separator. -/
theorem parseNumAt_span {cs : List Char} {t : Nat × Nat × Nat} {k : Nat}
    (h : parseNumAt cs = some (t, k)) :
    1 ≤ k ∧ k ≤ cs.length ∧
      ∀ c ∈ cs.take k, (isDigitC c || isSepC c) = true := by
  simp only [parseNumAt] at h
  split at h
  · simp at h
  rename_i hlen
  split at h
  · simp at h
  rename_i s1 r2 heq
  split at h
  · simp at h
  rename_i hs1
  split at h
  · simp at h
  rename_i hlen2
  split at h
  · simp at h
  rename_i s2 r3 heq2
  split at h
  · simp at h
  rename_i hs2
  split at h
  · simp at h
  rename_i hys
  simp only [Option.some.injEq, Prod.mk.injEq] at h
  obtain ⟨-, hk⟩ := h
  rw [not_not] at hs1 hs2
  set ds := cs.takeWhile isDigitC with hds
  set ms := r2.takeWhile isDigitC with hms
  set ys := r3.takeWhile isDigitC with hys3
  have hcs : cs = ds ++ s1 :: r2 := by
    conv_lhs => rw [← takeWhile_append_rest isDigitC cs]
    rw [← hds, heq]
  have hr2 : r2 = ms ++ s2 :: r3 := by
    conv_lhs => rw [← takeWhile_append_rest isDigitC r2]
    rw [← hms, heq2]
  have lcs : cs.length = ds.length + 1 + r2.length := by
    rw [hcs]; simp [List.length_append]; omega
  have lr2 : r2.length = ms.length + 1 + r3.length := by
    rw [hr2]; simp [List.length_append]; omega
  have lys : ys.length ≤ r3.length := by
    rw [hys3]; exact takeWhile_length_le _ _
  refine ⟨by omega, by omega, ?_⟩
  have htk : r3.take (min ys.length 4) = ys.take (min ys.length 4) := by
    obtain ⟨rest, hrest⟩ := List.takeWhile_prefix (l := r3) isDigitC
    rw [← hys3] at hrest
    conv_lhs => rw [← hrest]
    exact List.take_append_of_le_length (Nat.min_le_left _ _)
  have htake : cs.take k = ds ++ s1 :: (ms ++ s2 :: ys.take (min ys.length 4)) := by
    conv_lhs => rw [hcs]
    rw [show k = ds.length + (ms.length + 1 + min ys.length 4 + 1) from by omega]
    rw [List.take_append, List.take_succ_cons]
    conv_lhs => rw [hr2]
    rw [show ms.length + 1 + min ys.length 4
        = ms.length + (min ys.length 4 + 1) from by omega]
    rw [List.take_append, List.take_succ_cons, htk]
  intro c hc
  rw [htake] at hc
  rcases List.mem_append.mp hc with hc | hc
  · rw [hds] at hc
    rw [Bool.or_eq_true]
    exact Or.inl (List.mem_takeWhile_imp hc)
  rcases List.mem_cons.mp hc with rfl | hc
  · rw [Bool.or_eq_true]; exact Or.inr hs1
  rcases List.mem_append.mp hc with hc | hc
  · rw [hms] at hc
    rw [Bool.or_eq_true]
    exact Or.inl (List.mem_takeWhile_imp hc)
  rcases List.mem_cons.mp hc with rfl | hc
  · rw [Bool.or_eq_true]; exact Or.inr hs2
  · rw [Bool.or_eq_true]
    have hc2 := List.mem_of_mem_take hc
    rw [hys3] at hc2
    exact Or.inl (List.mem_takeWhile_imp hc2)

/-- The numeric pattern never matches at a blank. -/
theorem parseNumAt_space (l : List Char) : parseNumAt (' ' :: l) = none := by
  simp only [parseNumAt]
  rw [takeWhile_cons_neg _ _ _ rfl]
  simp

/-- At the fragment `31/01/2026` the numeric pattern matches, with greedy
groups 31, 01, 2026, whatever follows. -/
theorem parseNumAt_frag31 (r : List Char) :
    parseNumAt ('3':: '1':: '/':: '0':: '1':: '/':: '2':: '0':: '2':: '6'::r)
      = some ((31, 1, 2026), 10) := by
  have h1 : List.takeWhile isDigitC ('3':: '1':: '/':: '0':: '1':: '/':: '2':: '0':: '2':: '6'::r)
      = ['3', '1'] := by
    rw [takeWhile_cons_pos _ _ _ rfl, takeWhile_cons_pos _ _ _ rfl,
        takeWhile_cons_neg _ _ _ rfl]
  have h2 : List.takeWhile isDigitC ('0':: '1':: '/':: '2':: '0':: '2':: '6'::r)
      = ['0', '1'] := by
    rw [takeWhile_cons_pos _ _ _ rfl, takeWhile_cons_pos _ _ _ rfl,
        takeWhile_cons_neg _ _ _ rfl]
  have h3 : List.takeWhile isDigitC ('2':: '0':: '2':: '6'::r)
      = '2':: '0':: '2':: '6'::(r.takeWhile isDigitC) := by
    rw [takeWhile_cons_pos _ _ _ rfl, takeWhile_cons_pos _ _ _ rfl,
        takeWhile_cons_pos _ _ _ rfl, takeWhile_cons_pos _ _ _ rfl]
  simp only [parseNumAt, h1, h2, h3, List.length_cons, List.length_nil,
    List.drop_succ_cons, List.drop_zero]
  rw [if_neg (by omega), if_neg (by simp [isSepC]), if_neg (by omega),
      if_neg (by simp [isSepC]), if_neg (by omega)]
  rw [Nat.min_eq_right (by omega)]
  simp [List.take_succ_cons, digitsVal]

/-- Completeness of the unanchored numeric scan for the space-preceded
fragment ` 31/01/2026`: no match can cover the blank, so the scan reaches
the fragment and emits (31, 1, 2026). -/
theorem scanNums_frag (fuel : Nat) :
    ∀ (cs l r : List Char), cs.length ≤ fuel →
      cs = l ++ ' ' :: ('3':: '1':: '/':: '0':: '1':: '/':: '2':: '0':: '2':: '6'::r) →
      (31, 1, 2026) ∈ scanNums fuel cs := by
  induction fuel with
  | zero =>
    intro cs l r hfuel hcs
    subst hcs
    simp at hfuel
  | succ n ih =>
    intro cs l r hfuel hcs
    cases l with
    | nil =>
      subst hcs
      simp only [List.nil_append] at hfuel ⊢
      rw [scanNums, parseNumAt_space]
      cases n with
      | zero => simp at hfuel
      | succ m =>
        rw [scanNums, parseNumAt_frag31]
        exact List.mem_cons_self _ _
    | cons a l0 =>
      subst hcs
      rw [List.cons_append, scanNums]
      rcases hp : parseNumAt (a :: (l0 ++ ' ' :: ('3':: '1':: '/':: '0':: '1':: '/':: '2':: '0':: '2':: '6'::r))) with _ | ⟨t, k⟩
      · exact ih _ l0 r (by simp at hfuel ⊢; omega) rfl
      · obtain ⟨hk1, hk2, hall⟩ := parseNumAt_span hp
        have hkle : k ≤ (a :: l0).length := by
          by_contra hgt
          push_neg at hgt
          have hsp : ' ' ∈ (a :: (l0 ++ ' ' :: ('3':: '1':: '/':: '0':: '1':: '/':: '2':: '0':: '2':: '6'::r))).take k := by
            rw [show (a :: (l0 ++ ' ' :: ('3':: '1':: '/':: '0':: '1':: '/':: '2':: '0':: '2':: '6'::r)))
                = (a :: l0) ++ ' ' :: ('3':: '1':: '/':: '0':: '1':: '/':: '2':: '0':: '2':: '6'::r)
              from by simp]
            rw [show k = (a :: l0).length + (k - (a :: l0).length) from by omega,
                List.take_append]
            apply List.mem_append_right
            rw [show k - (a :: l0).length = (k - (a :: l0).length - 1) + 1 from by omega,
                List.take_succ_cons]
            exact List.mem_cons_self _ _
          exact absurd (hall ' ' hsp) (by decide)
        apply List.mem_cons_of_mem
        have hdrop : (a :: (l0 ++ ' ' :: ('3':: '1':: '/':: '0':: '1':: '/':: '2':: '0':: '2':: '6'::r))).drop k
            = (a :: l0).drop k ++ ' ' :: ('3':: '1':: '/':: '0':: '1':: '/':: '2':: '0':: '2':: '6'::r) := by
          rw [show (a :: (l0 ++ ' ' :: ('3':: '1':: '/':: '0':: '1':: '/':: '2':: '0':: '2':: '6'::r)))
              = (a :: l0) ++ ' ' :: ('3':: '1':: '/':: '0':: '1':: '/':: '2':: '0':: '2':: '6'::r)
            from by simp]
          exact List.drop_append_of_le_length hkle
        rw [hdrop]
        apply ih _ ((a :: l0).drop k) r _ rfl
        simp only [List.length_append, List.length_drop, List.length_cons] at hfuel ⊢
        omega

/-- Any text containing "prazo: 31/01/2026" yields the date 2026-01-31:
the fragment places the triple after a blank, the unanchored numeric pass
finds it there, and its result is part of the returned collection. -/
theorem parse_contains_prazo_frag (text l r : List Char)
    (h : text = l ++ "prazo: 31/01/2026".toList ++ r) :
    (⟨2026, 1, 31⟩ : PDate) ∈ parse_deadlines text := by
  have hfrag : "prazo: 31/01/2026".toList.map pyLower
      = "prazo: 31/01/2026".toList := by decide
  have hsplit : "prazo: 31/01/2026".toList
      = ('p':: 'r':: 'a':: 'z':: 'o':: ':'::[])
        ++ ' ' :: ('3':: '1':: '/':: '0':: '1':: '/':: '2':: '0':: '2':: '6'::[]) := by
    decide
  have ht : text.map pyLower
      = (l.map pyLower ++ ('p':: 'r':: 'a':: 'z':: 'o':: ':'::[]))
        ++ ' ' :: ('3':: '1':: '/':: '0':: '1':: '/':: '2':: '0':: '2':: '6'::(r.map pyLower)) := by
    rw [h, List.map_append, List.map_append, hfrag, hsplit]
    simp
  have hm := scanNums_frag (text.map pyLower).length (text.map pyLower) _ _ le_rfl ht
  simp only [parse_deadlines]
  refine List.mem_append.mpr (Or.inl (List.mem_append.mpr (Or.inr ?_)))
  exact List.mem_filterMap.mpr ⟨(31, 1, 2026), hm, by decide⟩

/-! ### Character-class disjointness -/

theorem space_not_digit {c : Char} (h : isSpaceC c = true) : isDigitC c = false := by
  simp only [isSpaceC, Bool.or_eq_true, decide_eq_true_eq] at h
  rcases h with ((((((rfl | rfl) | rfl) | rfl) | rfl) | rfl) | rfl) | rfl <;> decide

theorem month_not_digit {c : Char} (h : isMonthC c = true) : isDigitC c = false := by
  cases hd : isDigitC c
  · rfl
  exfalso
  simp only [isDigitC, Bool.and_eq_true, decide_eq_true_eq] at hd
  obtain ⟨hd1, hd2⟩ := hd
  simp only [isMonthC, Bool.or_eq_true, Bool.and_eq_true, decide_eq_true_eq] at h
  rcases h with ((((((((⟨h1, -⟩ | rfl) | rfl) | rfl) | rfl) | rfl) | rfl) | rfl) | rfl) | rfl
  · exact absurd (le_trans h1 hd2) (by decide)
  all_goals exact absurd hd2 (by decide)

theorem all_space_countP {l : List Char} (h : l.all isSpaceC = true) :
    l.countP isDigitC = 0 := by
  rw [List.countP_eq_zero]
  intro c hc
  rw [space_not_digit (List.all_eq_true.mp h c hc)]
  simp

theorem all_month_countP {l : List Char} (h : l.all isMonthC = true) :
    l.countP isDigitC = 0 := by
  rw [List.countP_eq_zero]
  intro c hc
  rw [month_not_digit (List.all_eq_true.mp h c hc)]
  simp

/-! ### Suffix pinning: locating a parsed segment inside a known fragment -/

/-- If `X ++ S = Y ++ G` and `S` is no longer than `G`, then `S` is the
corresponding suffix of `G` and `X` extends `Y` by the rest of `G`. -/
theorem pin_suffix {X S Y G : List Char} (h : X ++ S = Y ++ G)
    (hle : S.length ≤ G.length) :
    S = G.drop (G.length - S.length) ∧ X = Y ++ G.take (G.length - S.length) := by
  have hlen : X.length + S.length = Y.length + G.length := by
    have h2 := congrArg List.length h
    simpa [List.length_append] using h2
  have hX : X.length = Y.length + (G.length - S.length) := by omega
  constructor
  · have h1 : S = (Y ++ G).drop X.length := by
      rw [← h]; exact (List.drop_left X S).symm
    rw [hX, List.drop_append] at h1
    exact h1
  · have h2 : X = (Y ++ G).take X.length := by
      rw [← h]; exact (List.take_left X S).symm
    rw [hX, List.take_append] at h2
    exact h2

/-- If `X ++ S = Y ++ G` and `S` is strictly longer than `G`, then every
character of `G` occurs in `S`. -/
theorem pin_suffix_big {X S Y G : List Char} (h : X ++ S = Y ++ G)
    (hgt : G.length < S.length) : ∀ c ∈ G, c ∈ S := by
  obtain ⟨hG, -⟩ := pin_suffix h.symm (le_of_lt hgt)
  intro c hc
  rw [hG] at hc
  exact List.mem_of_mem_drop hc

/-! ### Structure of a keyword match -/

theorem take_of_lit_isPrefixOf {cs lit : List Char} (h : lit.isPrefixOf cs = true) :
    cs.take lit.length = lit :=
  (List.prefix_iff_eq_take.mp (List.isPrefixOf_iff_prefix.mp h)).symm

theorem take_eq_imp_le {cs lit : List Char} {n : Nat} (h : cs.take n = lit)
    (hl : lit.length = n) : n ≤ cs.length := by
  have h2 := congrArg List.length h
  rw [List.length_take, hl] at h2
  omega

/-- A keyword match is nonempty and contains no digit. -/
theorem kwMatchAt_some {cs : List Char} {kl : Nat} (h : kwMatchAt cs = some kl) :
    cs.take kl ≠ [] ∧ (cs.take kl).countP isDigitC = 0 ∧ kl ≤ cs.length := by
  simp only [kwMatchAt] at h
  split at h
  · rename_i hpre
    injection h with hkl
    have ht := take_of_lit_isPrefixOf hpre
    rw [show ("até".toList.length) = 3 from by decide] at ht
    subst hkl
    refine ⟨?_, ?_, take_eq_imp_le ht (by decide)⟩ <;> rw [ht]
    · exact (by decide)
    · exact (by decide)
  split at h
  · rename_i hpre
    injection h with hkl
    have ht := take_of_lit_isPrefixOf hpre
    rw [show ("prazo".toList.length) = 5 from by decide] at ht
    subst hkl
    refine ⟨?_, ?_, take_eq_imp_le ht (by decide)⟩ <;> rw [ht]
    · exact (by decide)
    · exact (by decide)
  split at h
  · rename_i hpre
    injection h with hkl
    have ht := take_of_lit_isPrefixOf hpre
    rw [show ("inscri".toList.length) = 6 from by decide] at ht
    subst hkl
    refine ⟨?_, ?_, take_eq_imp_le ht (by decide)⟩ <;> rw [ht]
    · exact (by decide)
    · exact (by decide)
  split at h
  · rename_i hpre
    injection h with hkl
    have ht := take_of_lit_isPrefixOf hpre
    rw [show ("submiss".toList.length) = 7 from by decide] at ht
    subst hkl
    refine ⟨?_, ?_, take_eq_imp_le ht (by decide)⟩ <;> rw [ht]
    · exact (by decide)
    · exact (by decide)
  split at h
  · rename_i hpre
    injection h with hkl
    have ht := take_of_lit_isPrefixOf hpre
    rw [show ("envio".toList.length) = 5 from by decide] at ht
    subst hkl
    refine ⟨?_, ?_, take_eq_imp_le ht (by decide)⟩ <;> rw [ht]
    · exact (by decide)
    · exact (by decide)
  split at h
  · rename_i hpre
    injection h with hkl
    have ht := take_of_lit_isPrefixOf hpre
    rw [show ("entrega".toList.length) = 7 from by decide] at ht
    subst hkl
    refine ⟨?_, ?_, take_eq_imp_le ht (by decide)⟩ <;> rw [ht]
    · exact (by decide)
    · exact (by decide)
  split at h
  · rename_i hpre
    injection h with hkl
    have ht := take_of_lit_isPrefixOf hpre
    rw [show ("encerr".toList.length) = 6 from by decide] at ht
    subst hkl
    refine ⟨?_, ?_, take_eq_imp_le ht (by decide)⟩ <;> rw [ht]
    · exact (by decide)
    · exact (by decide)
  split at h
  · rename_i hdata
    split at h
    · rename_i hlim
      injection h with hkl
      subst hkl
      have h4 := take_of_lit_isPrefixOf hdata
      rw [show ("data".toList.length) = 4 from by decide] at h4
      have hcs : cs = "data".toList ++ cs.drop 4 := by
        conv_lhs => rw [← List.take_append_drop 4 cs, h4]
      have hsp := takeWhile_append_rest isSpaceC (cs.drop 4)
      have h6 := take_of_lit_isPrefixOf hlim
      rw [show ("limite".toList.length) = 6 from by decide] at h6
      set sp := (cs.drop 4).takeWhile isSpaceC with hspdef
      have htake : cs.take (4 + sp.length + 6)
          = "data".toList ++ (sp ++ "limite".toList) := by
        have e1 : cs.take (4 + sp.length + 6)
            = ("data".toList ++ cs.drop 4).take (4 + sp.length + 6) := by
          rw [← hcs]
        rw [e1]
        rw [show (4 + sp.length + 6)
            = ("data".toList).length + (sp.length + 6) from by
          rw [show ("data".toList.length) = 4 from by decide]; omega]
        rw [List.take_append]
        have e2 : (cs.drop 4).take (sp.length + 6)
            = (sp ++ (cs.drop 4).drop sp.length).take (sp.length + 6) := by
          rw [hsp]
        rw [e2, List.take_append 6, h6]
      rw [htake]
      have hsp0 : sp.countP isDigitC = 0 := by
        apply all_space_countP
        rw [List.all_eq_true]
        intro c hc
        rw [hspdef] at hc
        exact List.mem_takeWhile_imp hc
      refine ⟨by simp, ?_, ?_⟩
      · simp only [List.countP_append]
        rw [hsp0]
        rw [show ("data".toList).countP isDigitC = 0 from by decide,
            show ("limite".toList).countP isDigitC = 0 from by decide]
      · refine take_eq_imp_le htake ?_
        simp only [List.length_append]
        rw [show ("data".toList).length = 4 from by decide,
            show ("limite".toList).length = 6 from by decide]
        omega
    · exact absurd h (by simp)
  split at h
  · rename_i hpre
    injection h with hkl
    have ht := take_of_lit_isPrefixOf hpre
    rw [show ("deadline".toList.length) = 8 from by decide] at ht
    subst hkl
    refine ⟨?_, ?_, take_eq_imp_le ht (by decide)⟩ <;> rw [ht]
    · exact (by decide)
    · exact (by decide)
  · exact absurd h (by simp)

/-! ### Helper parser characterizations -/

theorem digitRun12_some {cs day rest : List Char}
    (h : digitRun12 cs = some (day, rest)) :
    day ++ rest = cs ∧ day.all isDigitC = true ∧ day ≠ [] ∧ day.length ≤ 2 := by
  simp only [digitRun12] at h
  split at h
  · simp at h
  rename_i hlen
  simp only [Option.some.injEq, Prod.mk.injEq] at h
  obtain ⟨h1, h2⟩ := h
  subst h1
  subst h2
  refine ⟨takeWhile_append_rest _ _, ?_, ?_, by push_neg at hlen; omega⟩
  · rw [List.all_eq_true]
    intro c hc
    exact List.mem_takeWhile_imp hc
  · intro hnil
    rw [hnil] at hlen
    simp at hlen

theorem spaceRun1_some {cs sp rest : List Char}
    (h : spaceRun1 cs = some (sp, rest)) :
    sp ++ rest = cs ∧ sp.all isSpaceC = true ∧ sp ≠ [] := by
  simp only [spaceRun1] at h
  split at h
  · simp at h
  rename_i hlen
  simp only [Option.some.injEq, Prod.mk.injEq] at h
  obtain ⟨h1, h2⟩ := h
  subst h1
  subst h2
  refine ⟨takeWhile_append_rest _ _, ?_, ?_⟩
  · rw [List.all_eq_true]
    intro c hc
    exact List.mem_takeWhile_imp hc
  · intro hnil
    rw [hnil] at hlen
    simp at hlen

theorem monthRun1_some {cs mn rest : List Char}
    (h : monthRun1 cs = some (mn, rest)) :
    mn ++ rest = cs ∧ mn.all isMonthC = true ∧ mn ≠ [] := by
  simp only [monthRun1] at h
  split at h
  · simp at h
  rename_i hlen
  simp only [Option.some.injEq, Prod.mk.injEq] at h
  obtain ⟨h1, h2⟩ := h
  subst h1
  subst h2
  refine ⟨takeWhile_append_rest _ _, ?_, ?_⟩
  · rw [List.all_eq_true]
    intro c hc
    exact List.mem_takeWhile_imp hc
  · intro hnil
    rw [hnil] at hlen
    simp at hlen

theorem litDe_some {cs rest : List Char} (h : litDe cs = some rest) :
    ('d':: 'e'::[]) ++ rest = cs := by
  simp only [litDe] at h
  split at h
  · rename_i hpre
    have ht := take_of_lit_isPrefixOf hpre
    rw [show ("de".toList.length) = 2 from by decide,
        show ("de".toList) = ('d':: 'e'::[]) from by decide] at ht
    simp only [Option.some.injEq] at h
    subst h
    conv_rhs => rw [← List.take_append_drop 2 cs]
    rw [ht]
  · simp at h

theorem digitRun4_some {cs yr rest : List Char}
    (h : digitRun4 cs = some (yr, rest)) :
    yr ++ rest = cs ∧ yr.all isDigitC = true ∧ yr.length = 4 := by
  simp only [digitRun4] at h
  split at h
  · simp at h
  rename_i hlen
  push_neg at hlen
  simp only [Option.some.injEq, Prod.mk.injEq] at h
  obtain ⟨h1, h2⟩ := h
  subst h1
  subst h2
  obtain ⟨t, ht⟩ := List.takeWhile_prefix (l := cs) isDigitC
  have htk : (cs.takeWhile isDigitC).take 4 = cs.take 4 := by
    conv_rhs => rw [← ht]
    exact (List.take_append_of_le_length hlen).symm
  refine ⟨?_, ?_, ?_⟩
  · rw [htk]
    exact List.take_append_drop 4 cs
  · rw [List.all_eq_true]
    intro c hc
    exact List.mem_takeWhile_imp (List.mem_of_mem_take hc)
  · rw [List.length_take]
    omega

/-- Full segment structure of a successful written-out-date match: the
consumed span splits into keyword+gap (digit-free), day digits, spaces,
literal "de", spaces, month-name letters, spaces, literal "de", spaces and
a four-digit year, and the returned groups are read off these segments. -/
theorem parseExtAt_decomp {cs : List Char} {d : Nat} {mn : List Char} {y k : Nat}
    (h : parseExtAt cs = some ((d, mn, y), k)) :
    ∃ A A8 day sp1 sp2 sp3 sp4 yr rest,
      cs = A ++ (yr ++ rest) ∧
      A = A8 ++ (day ++ (sp1 ++ (('d':: 'e'::[]) ++ (sp2 ++ (mn ++ (sp3 ++
        (('d':: 'e'::[]) ++ sp4))))))) ∧
      A8 ≠ [] ∧ A8.countP isDigitC = 0 ∧
      day.all isDigitC = true ∧ day ≠ [] ∧ day.length ≤ 2 ∧ d = digitsVal day ∧
      sp1.all isSpaceC = true ∧ sp1 ≠ [] ∧
      sp2.all isSpaceC = true ∧ sp2 ≠ [] ∧
      mn.all isMonthC = true ∧ mn ≠ [] ∧
      sp3.all isSpaceC = true ∧ sp3 ≠ [] ∧
      sp4.all isSpaceC = true ∧ sp4 ≠ [] ∧
      yr.all isDigitC = true ∧ yr.length = 4 ∧ y = digitsVal yr ∧
      k = A.length + 4 := by
  simp only [parseExtAt] at h
  split at h
  · simp at h
  rename_i kl hkw
  split at h
  · simp at h
  rename_i hgap60
  split at h
  · simp at h
  rename_i day r2 hday
  split at h
  · simp at h
  rename_i sp1 r3 hsp1
  split at h
  · simp at h
  rename_i r4 hde1
  split at h
  · simp at h
  rename_i sp2 r5 hsp2
  split at h
  · simp at h
  rename_i mon r6 hmon
  split at h
  · simp at h
  rename_i sp3 r7 hsp3
  split at h
  · simp at h
  rename_i r8 hde2
  split at h
  · simp at h
  rename_i sp4 r9 hsp4
  split at h
  · simp at h
  rename_i yr rest9 hyr
  simp only [Option.some.injEq, Prod.mk.injEq] at h
  obtain ⟨⟨hd, hmn, hy⟩, hk⟩ := h
  subst hmn
  obtain ⟨hKWne, hKW0, hKWle⟩ := kwMatchAt_some hkw
  set gap := (cs.drop kl).takeWhile (fun c => ¬ (isDigitC c = true)) with hgapdef
  obtain ⟨eday, hdayall, hdayne, hdaylen⟩ := digitRun12_some hday
  obtain ⟨esp1, hsp1all, hsp1ne⟩ := spaceRun1_some hsp1
  have ede1 := litDe_some hde1
  obtain ⟨esp2, hsp2all, hsp2ne⟩ := spaceRun1_some hsp2
  obtain ⟨emon, hmonall, hmonne⟩ := monthRun1_some hmon
  obtain ⟨esp3, hsp3all, hsp3ne⟩ := spaceRun1_some hsp3
  have ede2 := litDe_some hde2
  obtain ⟨esp4, hsp4all, hsp4ne⟩ := spaceRun1_some hsp4
  obtain ⟨eyr, hyrall, hyrlen⟩ := digitRun4_some hyr
  have eKW : cs.take kl ++ cs.drop kl = cs := List.take_append_drop kl cs
  have egap : gap ++ (cs.drop kl).drop gap.length = cs.drop kl := by
    rw [hgapdef]; exact takeWhile_append_rest _ _
  have hchain : cs = cs.take kl ++ (gap ++ (day ++ (sp1 ++ (('d':: 'e'::[]) ++
      (sp2 ++ (mon ++ (sp3 ++ (('d':: 'e'::[]) ++ (sp4 ++
      (yr ++ rest9)))))))))) := by
    conv_lhs => rw [← eKW]
    congr 1
    conv_lhs => rw [← egap]
    congr 1
    conv_lhs => rw [← eday]
    congr 1
    conv_lhs => rw [← esp1]
    congr 1
    conv_lhs => rw [← ede1]
    congr 1
    conv_lhs => rw [← esp2]
    congr 1
    conv_lhs => rw [← emon]
    congr 1
    conv_lhs => rw [← esp3]
    congr 1
    conv_lhs => rw [← ede2]
    congr 1
    conv_lhs => rw [← esp4]
    congr 1
    conv_lhs => rw [← eyr]
  have hKWlen : (cs.take kl).length = kl := by
    rw [List.length_take]; omega
  refine ⟨(cs.take kl ++ gap) ++ (day ++ (sp1 ++ (('d':: 'e'::[]) ++ (sp2 ++
      (mon ++ (sp3 ++ (('d':: 'e'::[]) ++ sp4))))))),
    cs.take kl ++ gap, day, sp1, sp2, sp3, sp4, yr, rest9,
    ?_, rfl, ?_, ?_, hdayall, hdayne, hdaylen, hd.symm,
    hsp1all, hsp1ne, hsp2all, hsp2ne, hmonall, hmonne,
    hsp3all, hsp3ne, hsp4all, hsp4ne, hyrall, hyrlen, hy.symm, ?_⟩
  · conv_lhs => rw [hchain]
    simp [List.append_assoc]
  · simp only [ne_eq, List.append_eq_nil]
    rintro ⟨h1, -⟩
    exact hKWne h1
  · rw [List.countP_append, hKW0]
    have hg0 : gap.countP isDigitC = 0 := by
      rw [List.countP_eq_zero]
      intro c hc
      rw [hgapdef] at hc
      have h2 := List.mem_takeWhile_imp hc
      simp only [decide_eq_true_eq] at h2
      simpa using h2
    rw [hg0]
  · simp only [List.length_append, List.length_cons, List.length_nil, hKWlen]
    omega

/-- Step lemma: a nonempty all-whitespace segment at the end of `l ++ G`
must be exactly the final blank of `G`, provided `G` starts with a
non-blank and its second-to-last character is the non-blank `c`. -/
theorem space_step {E sp l G : List Char} (h : E ++ sp = l ++ G)
    (hall : sp.all isSpaceC = true) (hne : sp ≠ [])
    (hmemA : 'a' ∈ G) (c : Char) (hcns : isSpaceC c = false)
    (hcmem : ∀ t : Nat, t ≤ G.length - 2 → c ∈ G.drop t) :
    sp.length = 1 ∧ E = l ++ G.take (G.length - 1) := by
  by_cases hbig : G.length < sp.length
  · exfalso
    have hmem := pin_suffix_big h hbig 'a' hmemA
    have h2 := List.all_eq_true.mp hall 'a' hmem
    exact absurd h2 (by decide)
  push_neg at hbig
  obtain ⟨hspeq, hE⟩ := pin_suffix h hbig
  have hlen0 : sp.length ≠ 0 := by
    intro hh
    exact hne (List.length_eq_zero.mp hh)
  have hlen1 : sp.length = 1 := by
    by_contra hne1
    have h2 : 2 ≤ sp.length := by omega
    have hmem : c ∈ sp := by
      rw [hspeq]
      exact hcmem _ (by omega)
    have h3 := List.all_eq_true.mp hall c hmem
    rw [hcns] at h3
    exact Bool.noConfusion h3
  rw [hlen1] at hE
  exact ⟨hlen1, hE⟩

/-- Step lemma: the literal `de` at the end of `l ++ G` pins the prefix. -/
theorem de_step {E l G : List Char} (h : E ++ ('d':: 'e'::[]) = l ++ G)
    (hlen : 2 ≤ G.length) : E = l ++ G.take (G.length - 2) := by
  obtain ⟨-, hE⟩ := pin_suffix h (by simpa using hlen)
  rw [show (('d':: 'e'::[]) : List Char).length = 2 from rfl] at hE
  exact hE

/-- Overlap derivation: if the written-out-date pattern matches the text
`l ++ "até 31 de janeiro de 2026" ++ r` with a span that extends past `l`,
then its captured groups are exactly day 31, month name "janeiro" and year
2026 — the fragment's own date.  (The span's four-digit year can only sit
on the fragment's "2026", and walking the pattern backwards from there
pins every group.) -/
theorem parseExtAt_overlap {l r : List Char} {d : Nat} {mn : List Char}
    {y k : Nat}
    (h : parseExtAt (l ++ ("até 31 de janeiro de 2026".toList ++ r))
      = some ((d, mn, y), k))
    (hk : l.length < k) :
    d = 31 ∧ mn = "janeiro".toList ∧ y = 2026 := by
  obtain ⟨A, A8, day, sp1, sp2, sp3, sp4, yr, rest, hcs, hA, hA8ne, hA80,
    hdayall, hdayne, hdaylen, hd, hsp1all, hsp1ne, hsp2all, hsp2ne,
    hmnall, hmnne, hsp3all, hsp3ne, hsp4all, hsp4ne, hyrall, hyrlen, hy,
    hkk⟩ := parseExtAt_decomp h
  set F := "até 31 de janeiro de 2026".toList with hF
  have hFlen : F.length = 25 := by rw [hF]; decide
  have hA2 : A.countP isDigitC ≤ 2 := by
    rw [hA]
    simp only [List.countP_append]
    have c1 := all_space_countP hsp1all
    have c2 := all_space_countP hsp2all
    have c3 := all_space_countP hsp3all
    have c4 := all_space_countP hsp4all
    have cm := all_month_countP hmnall
    have cde : (('d':: 'e'::[]) : List Char).countP isDigitC = 0 := by decide
    have cday : day.countP isDigitC ≤ day.length := List.countP_le_length _
    omega
  have hAtake : A = (l ++ (F ++ r)).take A.length := by
    rw [hcs]; exact (List.take_left _ _).symm
  rcases lt_or_ge A.length l.length with hlt | hge
  · -- the year would have to cover the fragment's opening letter
    exfalso
    have hA' : A = l.take A.length := by
      conv_lhs => rw [hAtake]
      rw [List.take_append_of_le_length (le_of_lt hlt)]
    have hl : l = A ++ l.drop A.length := by
      conv_lhs => rw [← List.take_append_drop A.length l]
      congr 1
      exact hA'.symm
    have h2 : A ++ (yr ++ rest) = A ++ (l.drop A.length ++ (F ++ r)) := by
      rw [← hcs]
      conv_lhs => rw [hl]
      simp [List.append_assoc]
    have h3 := List.append_cancel_left h2
    have hyr4 : yr = (l.drop A.length ++ (F ++ r)).take 4 := by
      rw [← h3, ← hyrlen]
      exact (List.take_left _ _).symm
    have hdl : (l.drop A.length).length ≤ 3 := by
      rw [List.length_drop]; omega
    rw [show (4 : Nat) = (l.drop A.length).length + (4 - (l.drop A.length).length)
        from by omega, List.take_append] at hyr4
    have hmem : 'a' ∈ yr := by
      rw [hyr4]
      apply List.mem_append_right
      rw [hF, show ("até 31 de janeiro de 2026".toList)
          = 'a'::("té 31 de janeiro de 2026".toList) from by decide]
      rw [show (4 - (l.drop A.length).length)
          = (4 - (l.drop A.length).length - 1) + 1 from by omega]
      rw [List.cons_append, List.take_succ_cons]
      exact List.mem_cons_self _ _
    have h4 := List.all_eq_true.mp hyrall 'a' hmem
    exact absurd h4 (by decide)
  · have hAeq : A = l ++ (F ++ r).take (A.length - l.length) := by
      conv_lhs =>
        rw [hAtake, show A.length = l.length + (A.length - l.length) from by omega,
          List.take_append]
    set jA := A.length - l.length with hjA
    by_cases hjbig : 22 ≤ jA
    · -- the span before the year would contain four consecutive digits
      exfalso
      have e22 : (F ++ r).take jA
          = (F ++ r).take 22 ++ ((F ++ r).drop 22).take (jA - 22) := by
        rw [← List.take_add]
        congr 1
        omega
      have e22b : (F ++ r).take 22 = F.take 22 :=
        List.take_append_of_le_length (by omega)
      have hc22 : (F.take 22).countP isDigitC = 3 := by rw [hF]; decide
      have hcount : 3 ≤ A.countP isDigitC := by
        rw [hAeq, e22, e22b]
        simp only [List.countP_append]
        omega
      omega
    · push_neg at hjbig
      -- the year segment sits inside the fragment
      have htl : yr ++ rest = (F ++ r).drop jA := by
        have h2 : A ++ (yr ++ rest)
            = A ++ ((F ++ r).drop jA) := by
          rw [← hcs]
          conv_rhs => rw [hAeq]
          rw [List.append_assoc]
          congr 1
          exact (List.take_append_drop _ (F ++ r)).symm
        exact List.append_cancel_left h2
      have hyr4 : yr = ((F ++ r).drop jA).take 4 := by
        rw [← htl, ← hyrlen]
        exact (List.take_left _ _).symm
      have hdropj : (F ++ r).drop jA
          = F.drop jA ++ r :=
        List.drop_append_of_le_length (by omega)
      have htake4 : (F.drop jA ++ r).take 4
          = (F.drop jA).take 4 :=
        List.take_append_of_le_length (by rw [List.length_drop]; omega)
      have hyr4f : yr = (F.drop jA).take 4 := by
        rw [hyr4, hdropj, htake4]
      by_cases hj20 : jA ≤ 20
      · exfalso
        have hdec : ∀ jj : Nat, jj ≤ 20 →
            ((("até 31 de janeiro de 2026".toList).drop jj).take 4).all isDigitC
              = false := by decide
        have h6 : yr.all isDigitC = false := by
          rw [hyr4f, hF]
          exact hdec jA hj20
        rw [hyrall] at h6
        exact Bool.noConfusion h6
      · have hj21 : jA = 21 := by omega
        -- year group is the fragment's 2026
        have hyr2026 : yr = "2026".toList := by
          rw [hyr4f, hj21, hF]
          all_goals decide
        have hy2026 : y = 2026 := by
          rw [hy, hyr2026]
          all_goals decide
        -- pin the remaining segments backwards through the fragment
        have hA21 : A = l ++ "até 31 de janeiro de ".toList := by
          rw [hAeq, hj21]
          congr 1
        have hAleft : ((((((((A8 ++ day) ++ sp1) ++ ('d':: 'e'::[])) ++ sp2)
            ++ mn) ++ sp3) ++ ('d':: 'e'::[])) ++ sp4)
            = l ++ "até 31 de janeiro de ".toList := by
          rw [← hA21, hA]
          simp [List.append_assoc]
        obtain ⟨-, hE1⟩ := space_step hAleft hsp4all hsp4ne (by decide) 'e'
          (by decide) (by decide)
        rw [show (("até 31 de janeiro de ".toList).take
            (("até 31 de janeiro de ".toList).length - 1))
            = "até 31 de janeiro de".toList from by decide] at hE1
        have hE2 := de_step hE1 (by decide)
        rw [show (("até 31 de janeiro de".toList).take
            (("até 31 de janeiro de".toList).length - 2))
            = "até 31 de janeiro ".toList from by decide] at hE2
        obtain ⟨-, hE3⟩ := space_step hE2 hsp3all hsp3ne (by decide) 'o'
          (by decide) (by decide)
        rw [show (("até 31 de janeiro ".toList).take
            (("até 31 de janeiro ".toList).length - 1))
            = "até 31 de janeiro".toList from by decide] at hE3
        -- month-name segment
        have hG3len : ("até 31 de janeiro".toList).length = 17 := by decide
        by_cases hmbig : ("até 31 de janeiro".toList).length < mn.length
        · exfalso
          have hmem := pin_suffix_big hE3 hmbig ' ' (by decide)
          have h5 := List.all_eq_true.mp hmnall ' ' hmem
          exact absurd h5 (by decide)
        push_neg at hmbig
        obtain ⟨hmneq, hE4⟩ := pin_suffix hE3 hmbig
        have hmn0 : mn.length ≠ 0 := by
          intro hh
          exact hmnne (List.length_eq_zero.mp hh)
        rcases lt_trichotomy mn.length 7 with hm7 | hm7 | hm7
        · -- a short month suffix would force a letter where spaces sit
          exfalso
          have hs16 : ("até 31 de janeiro".toList).length - mn.length ≤ 16 := by
            omega
          have hs11 : 11 ≤ ("até 31 de janeiro".toList).length - mn.length := by
            omega
          by_cases hbig2 : (("até 31 de janeiro".toList).take
              (("até 31 de janeiro".toList).length - mn.length)).length
              < sp2.length
          · have hfa : ∀ ss : Nat, ss ≤ 16 → 11 ≤ ss →
                'a' ∈ ("até 31 de janeiro".toList).take ss := by decide
            have hmem := pin_suffix_big hE4 hbig2 'a' (hfa _ hs16 hs11)
            have h5 := List.all_eq_true.mp hsp2all 'a' hmem
            exact absurd h5 (by decide)
          · push_neg at hbig2
            obtain ⟨hsp2eq, -⟩ := pin_suffix hE4 hbig2
            have hsp2len : sp2.length ≠ 0 := by
              intro hh
              exact hsp2ne (List.length_eq_zero.mp hh)
            have htks : (("até 31 de janeiro".toList).take
                (("até 31 de janeiro".toList).length - mn.length)).length
                = ("até 31 de janeiro".toList).length - mn.length := by
              rw [List.length_take]
              omega
            have hfalse : ∀ ss : Nat, ss ≤ 16 → 11 ≤ ss → ∀ u : Nat, u < ss →
                ((("até 31 de janeiro".toList).take ss).drop u).all isSpaceC
                  = false := by decide
            have h6 := hfalse _ hs16 hs11
              ((("até 31 de janeiro".toList).take
                (("até 31 de janeiro".toList).length - mn.length)).length
                - sp2.length)
              (by omega)
            rw [← hsp2eq, hsp2all] at h6
            exact Bool.noConfusion h6
        · -- month name is exactly "janeiro"
          have hmnj : mn = "janeiro".toList := by
            rw [hmneq, hG3len, hm7]
            all_goals decide
          have hE4' : (((A8 ++ day) ++ sp1) ++ ('d':: 'e'::[])) ++ sp2
              = l ++ "até 31 de ".toList := by
            rw [hE4, hG3len, hm7]
            congr 1
            all_goals decide
          obtain ⟨-, hE5⟩ := space_step hE4' hsp2all hsp2ne (by decide) 'e'
            (by decide) (by decide)
          rw [show (("até 31 de ".toList).take
              (("até 31 de ".toList).length - 1))
              = "até 31 de".toList from by decide] at hE5
          have hE6 := de_step hE5 (by decide)
          rw [show (("até 31 de".toList).take
              (("até 31 de".toList).length - 2))
              = "até 31 ".toList from by decide] at hE6
          obtain ⟨-, hE7⟩ := space_step hE6 hsp1all hsp1ne (by decide) '1'
            (by decide) (by decide)
          rw [show (("até 31 ".toList).take
              (("até 31 ".toList).length - 1))
              = "até 31".toList from by decide] at hE7
          -- day segment
          have hG7len : ("até 31".toList).length = 6 := by decide
          by_cases hdbig : ("até 31".toList).length < day.length
          · exfalso
            have hmem := pin_suffix_big hE7 hdbig 'a' (by decide)
            have h5 := List.all_eq_true.mp hdayall 'a' hmem
            exact absurd h5 (by decide)
          push_neg at hdbig
          obtain ⟨hdayeq, hA8eq⟩ := pin_suffix hE7 hdbig
          have hday0 : day.length ≠ 0 := by
            intro hh
            exact hdayne (List.length_eq_zero.mp hh)
          rcases lt_trichotomy day.length 2 with hd2 | hd2 | hd2
          · -- a one-digit day would put the digit 3 inside the digit-free prefix
            exfalso
            have hd1 : day.length = 1 := by omega
            have hA8' : A8 = l ++ "até 3".toList := by
              rw [hA8eq, hG7len, hd1]
              congr 1
              all_goals decide
            have hcnt : A8.countP isDigitC
                = l.countP isDigitC + ("até 3".toList).countP isDigitC := by
              rw [hA8', List.countP_append]
            rw [hA80] at hcnt
            have : ("até 3".toList).countP isDigitC = 1 := by decide
            omega
          · -- day group is the fragment's 31
            have hday31 : day = ('3':: '1'::[]) := by
              rw [hdayeq, hG7len, hd2]
              all_goals decide
            refine ⟨?_, hmnj, hy2026⟩
            rw [hd, hday31]
            all_goals decide
          · omega
        · -- a long month run would have to contain a blank of the fragment
          exfalso
          have hdec9 : ∀ t : Nat, t ≤ 9 →
              ' ' ∈ ("até 31 de janeiro".toList).drop t := by decide
          have hmem : ' ' ∈ mn := by
            rw [hmneq]
            exact hdec9 _ (by omega)
          have h5 := List.all_eq_true.mp hmnall ' ' hmem
          exact absurd h5 (by decide)

/-! ### Claim C6: the deadline policy picks the maximum date -/

/-- At the head of the fragment `até 31 de janeiro de 2026` (plus any
suffix) the written-out pattern matches with groups 31, "janeiro", 2026 and
span 25. -/
theorem digitRun4_frag (r : List Char) :
    digitRun4 ('2':: '0':: '2':: '6'::r) = some (('2':: '0':: '2':: '6'::[]), r) := by
  simp only [digitRun4]
  rw [takeWhile_cons_pos _ _ _ rfl, takeWhile_cons_pos _ _ _ rfl,
      takeWhile_cons_pos _ _ _ rfl, takeWhile_cons_pos _ _ _ rfl]
  rw [if_neg (by simp only [List.length_cons]; omega)]
  simp

theorem parseExtAt_frag (r : List Char) :
    parseExtAt ("até 31 de janeiro de 2026".toList ++ r)
      = some ((31, "janeiro".toList, 2026), 25) := by
  have e : "até 31 de janeiro de 2026".toList ++ r
      = 'a':: 't':: 'é':: ' ':: '3':: '1':: ' ':: 'd':: 'e':: ' ':: 'j':: 'a':: 'n':: 'e':: 'i':: 'r':: 'o':: ' ':: 'd':: 'e':: ' ':: '2':: '0':: '2':: '6'::r := rfl
  rw [e]
  rw [parseExtAt.eq_def]
  rw [show kwMatchAt ('a':: 't':: 'é':: ' ':: '3':: '1':: ' ':: 'd':: 'e':: ' ':: 'j':: 'a':: 'n':: 'e':: 'i':: 'r':: 'o':: ' ':: 'd':: 'e':: ' ':: '2':: '0':: '2':: '6'::r) = some 3 from rfl]
  dsimp only
  rw [show List.takeWhile (fun c => ¬ (isDigitC c = true)) (List.drop 3 ('a':: 't':: 'é':: ' ':: '3':: '1':: ' ':: 'd':: 'e':: ' ':: 'j':: 'a':: 'n':: 'e':: 'i':: 'r':: 'o':: ' ':: 'd':: 'e':: ' ':: '2':: '0':: '2':: '6'::r)) = [' '] from rfl]
  rw [if_neg (by decide)]
  rw [show digitRun12 (List.drop (List.length [' ']) (List.drop 3 ('a':: 't':: 'é':: ' ':: '3':: '1':: ' ':: 'd':: 'e':: ' ':: 'j':: 'a':: 'n':: 'e':: 'i':: 'r':: 'o':: ' ':: 'd':: 'e':: ' ':: '2':: '0':: '2':: '6'::r))) = some (('3':: '1'::[]), (' ':: 'd':: 'e':: ' ':: 'j':: 'a':: 'n':: 'e':: 'i':: 'r':: 'o':: ' ':: 'd':: 'e':: ' ':: '2':: '0':: '2':: '6'::r)) from rfl]
  dsimp only
  rw [show spaceRun1 (' ':: 'd':: 'e':: ' ':: 'j':: 'a':: 'n':: 'e':: 'i':: 'r':: 'o':: ' ':: 'd':: 'e':: ' ':: '2':: '0':: '2':: '6'::r) = some (([' ']), ('d':: 'e':: ' ':: 'j':: 'a':: 'n':: 'e':: 'i':: 'r':: 'o':: ' ':: 'd':: 'e':: ' ':: '2':: '0':: '2':: '6'::r)) from rfl]
  dsimp only
  rw [show litDe ('d':: 'e':: ' ':: 'j':: 'a':: 'n':: 'e':: 'i':: 'r':: 'o':: ' ':: 'd':: 'e':: ' ':: '2':: '0':: '2':: '6'::r) = some (' ':: 'j':: 'a':: 'n':: 'e':: 'i':: 'r':: 'o':: ' ':: 'd':: 'e':: ' ':: '2':: '0':: '2':: '6'::r) from rfl]
  dsimp only
  rw [show spaceRun1 (' ':: 'j':: 'a':: 'n':: 'e':: 'i':: 'r':: 'o':: ' ':: 'd':: 'e':: ' ':: '2':: '0':: '2':: '6'::r) = some (([' ']), ('j':: 'a':: 'n':: 'e':: 'i':: 'r':: 'o':: ' ':: 'd':: 'e':: ' ':: '2':: '0':: '2':: '6'::r)) from rfl]
  dsimp only
  rw [show monthRun1 ('j':: 'a':: 'n':: 'e':: 'i':: 'r':: 'o':: ' ':: 'd':: 'e':: ' ':: '2':: '0':: '2':: '6'::r) = some (('j':: 'a':: 'n':: 'e':: 'i':: 'r':: 'o'::[]), (' ':: 'd':: 'e':: ' ':: '2':: '0':: '2':: '6'::r)) from rfl]
  dsimp only
  rw [show spaceRun1 (' ':: 'd':: 'e':: ' ':: '2':: '0':: '2':: '6'::r) = some (([' ']), ('d':: 'e':: ' ':: '2':: '0':: '2':: '6'::r)) from rfl]
  dsimp only
  rw [show litDe ('d':: 'e':: ' ':: '2':: '0':: '2':: '6'::r) = some (' ':: '2':: '0':: '2':: '6'::r) from rfl]
  dsimp only
  rw [show spaceRun1 (' ':: '2':: '0':: '2':: '6'::r) = some (([' ']), ('2':: '0':: '2':: '6'::r)) from rfl]
  dsimp only
  rw [digitRun4_frag]
  dsimp only
  rfl

/-- A successful written-out match always spans at least four characters. -/
theorem parseExtAt_k_ge4 {cs : List Char} {d : Nat} {mn : List Char}
    {y k : Nat} (h : parseExtAt cs = some ((d, mn, y), k)) : 4 ≤ k := by
  obtain ⟨A, _, _, _, _, _, _, _, _,
    -, -, -, -, -, -, -, -, -, -, -, -, -, -, -, -, -, -, -, -, -,
    hkk⟩ := parseExtAt_decomp h
  omega

/-- Completeness of the written-out scan for the fragment
`até 31 de janeiro de 2026`: any earlier match either stops before the
fragment (the scan resumes on an intact copy) or overlaps it, in which case
its groups are the fragment's own by `parseExtAt_overlap`. -/
theorem scanExts_frag (fuel : Nat) :
    ∀ (cs l r : List Char), cs.length ≤ fuel →
      cs = l ++ ("até 31 de janeiro de 2026".toList ++ r) →
      (31, "janeiro".toList, 2026) ∈ scanExts fuel cs := by
  induction fuel with
  | zero =>
    intro cs l r hfuel hcs
    exfalso
    subst hcs
    simp only [List.length_append] at hfuel
    have h25 : ("até 31 de janeiro de 2026".toList).length = 25 := by decide
    omega
  | succ n ih =>
    intro cs l r hfuel hcs
    cases l with
    | nil =>
      subst hcs
      rw [List.nil_append]
      have hp : parseExtAt ('a':: 't':: 'é':: ' ':: '3':: '1':: ' ':: 'd':: 'e':: ' ':: 'j':: 'a':: 'n':: 'e':: 'i':: 'r':: 'o':: ' ':: 'd':: 'e':: ' ':: '2':: '0':: '2':: '6'::r)
          = some ((31, "janeiro".toList, 2026), 25) := parseExtAt_frag r
      rw [show "até 31 de janeiro de 2026".toList ++ r
          = 'a':: 't':: 'é':: ' ':: '3':: '1':: ' ':: 'd':: 'e':: ' ':: 'j':: 'a':: 'n':: 'e':: 'i':: 'r':: 'o':: ' ':: 'd':: 'e':: ' ':: '2':: '0':: '2':: '6'::r from rfl]
      rw [scanExts, hp]
      exact List.mem_cons_self _ _
    | cons a l0 =>
      subst hcs
      rw [List.cons_append, scanExts]
      rcases hp : parseExtAt (a :: (l0 ++ ("até 31 de janeiro de 2026".toList ++ r)))
        with _ | ⟨⟨d, mn, y⟩, k⟩
      · exact ih _ l0 r
          (by simp only [List.length_cons, List.length_append] at hfuel ⊢; omega) rfl
      · by_cases hkle : k ≤ (a :: l0).length
        · apply List.mem_cons_of_mem
          have hdrop : (a :: (l0 ++ ("até 31 de janeiro de 2026".toList ++ r))).drop k
              = (a :: l0).drop k ++ ("até 31 de janeiro de 2026".toList ++ r) := by
            rw [show a :: (l0 ++ ("até 31 de janeiro de 2026".toList ++ r))
                = (a :: l0) ++ ("até 31 de janeiro de 2026".toList ++ r) from by simp]
            exact List.drop_append_of_le_length hkle
          rw [hdrop]
          apply ih _ ((a :: l0).drop k) r _ rfl
          have hk4 : 4 ≤ k := parseExtAt_k_ge4 hp
          simp only [List.length_append, List.length_drop, List.length_cons] at hfuel ⊢
          omega
        · push_neg at hkle
          have hp2 : parseExtAt ((a :: l0) ++ ("até 31 de janeiro de 2026".toList ++ r))
              = some ((d, mn, y), k) := by rw [List.cons_append]; exact hp
          obtain ⟨hd, hmn, hy⟩ := parseExtAt_overlap hp2 hkle
          subst hd; subst hmn; subst hy
          exact List.mem_cons_self _ _

/-- Any text containing "até 31 de janeiro de 2026" yields the date
2026-01-31 through the written-out pass. -/
theorem parse_contains_ate_frag (text l r : List Char)
    (h : text = l ++ "até 31 de janeiro de 2026".toList ++ r) :
    (⟨2026, 1, 31⟩ : PDate) ∈ parse_deadlines text := by
  have hfrag : "até 31 de janeiro de 2026".toList.map pyLower
      = "até 31 de janeiro de 2026".toList := by decide
  have ht : text.map pyLower
      = (l.map pyLower) ++ ("até 31 de janeiro de 2026".toList ++ (r.map pyLower)) := by
    rw [h, List.map_append, List.map_append, hfrag]
    simp
  have hm := scanExts_frag (text.map pyLower).length (text.map pyLower) _ _ le_rfl ht
  simp only [parse_deadlines]
  refine List.mem_append.mpr (Or.inr ?_)
  simp only [extDates]
  exact List.mem_filterMap.mpr ⟨(31, "janeiro".toList, 2026), hm, by decide⟩

/-- C4: the Deadline Extractor finds 2026-01-31 in every text containing
"prazo: 31/01/2026"; it finds the same date in every text containing
"até 31 de janeiro de 2026"; and the invalid triple of "45/13/2026" never
contributes a date — no extracted date can carry month 13 and day 45, and
the fragment alone extracts to the empty collection. -/
theorem C4_extractor_examples :
    (∀ text l r : List Char, text = l ++ "prazo: 31/01/2026".toList ++ r →
      (⟨2026, 1, 31⟩ : PDate) ∈ parse_deadlines text) ∧
    (∀ text l r : List Char, text = l ++ "até 31 de janeiro de 2026".toList ++ r →
      (⟨2026, 1, 31⟩ : PDate) ∈ parse_deadlines text) ∧
    (∀ text : List Char, (⟨2026, 13, 45⟩ : PDate) ∉ parse_deadlines text) ∧
    parse_deadlines "45/13/2026".toList = [] := by
  refine ⟨parse_contains_prazo_frag, parse_contains_ate_frag, ?_, by decide⟩
  intro text hmem
  have hv := parse_deadlines_valid text _ hmem
  revert hv
  decide

/-- Witness for C4 at the bare fragments. -/
theorem C4_extractor_examples_witness :
    (⟨2026, 1, 31⟩ : PDate) ∈ parse_deadlines "prazo: 31/01/2026".toList ∧
    (⟨2026, 1, 31⟩ : PDate) ∈ parse_deadlines "até 31 de janeiro de 2026".toList ∧
    (⟨2026, 13, 45⟩ : PDate) ∉ parse_deadlines "45/13/2026".toList :=
  ⟨C4_extractor_examples.1 _ [] [] (by simp),
   C4_extractor_examples.2.1 _ [] [] (by simp),
   C4_extractor_examples.2.2.1 _⟩

/-- C5 counterexample: in "1/1/31/01/2026" the valid numeric triple
31/01/2026 occurs as a substring, yet the extractor returns only
2031-01-01 — the left-to-right scan consumed "1/1/31" first and never
matched the overlapped "31/01/2026", so not every valid numeric triple
occurring in the text contributes a date. -/
theorem C5_overlap_counterexample :
    "1/1/31/01/2026".toList
      = "1/1/".toList ++ "31/01/2026".toList ++ ([] : List Char) ∧
    validDate 2026 1 31 ∧
    (⟨2026, 1, 31⟩ : PDate) ∉ parse_deadlines "1/1/31/01/2026".toList ∧
    parse_deadlines "1/1/31/01/2026".toList = [⟨2031, 1, 1⟩] :=
  ⟨by decide, by decide, by decide, by decide⟩

/-- C5 (amended): the unanchored numeric pass runs over the whole
lower-cased text unconditionally — no keyword requirement, and regardless
of what the keyword pass found — and every date it produces (from its
non-overlapping left-to-right matches) is in the returned collection,
which is exactly the concatenation of the three passes in pass order. -/
theorem C5_unanchored_pass (text : List Char) :
    (∀ d ∈ numDates (scanNums (text.map pyLower).length (text.map pyLower)),
        d ∈ parse_deadlines text) ∧
    parse_deadlines text
      = numDates (scanKwNums (text.map pyLower).length (text.map pyLower))
          ++ numDates (scanNums (text.map pyLower).length (text.map pyLower))
          ++ extDates (scanExts (text.map pyLower).length (text.map pyLower)) := by
  refine ⟨?_, rfl⟩
  intro d hd
  simp only [parse_deadlines]
  exact List.mem_append.mpr (Or.inl (List.mem_append.mpr (Or.inr hd)))

/-- Witness for the amended C5: the unanchored-pass date 2031-01-01 of
"1/1/31/01/2026" is in the extractor's result. -/
theorem C5_unanchored_pass_witness :
    (⟨2031, 1, 1⟩ : PDate) ∈ parse_deadlines "1/1/31/01/2026".toList :=
  (C5_unanchored_pass "1/1/31/01/2026".toList).1 ⟨2031, 1, 1⟩ (by decide)

/-- C3: when some link matches a keyword, the selector returns exactly the
matching links, in input order (the sublist `links.filter linkMatch`);
when no link matches, it returns the first 10 links unchanged. -/
theorem C3_selector (links : List (List Char × List Char)) :
    ((∃ e ∈ links, linkMatch e = true) →
        select links = links.filter linkMatch) ∧
    ((∀ e ∈ links, linkMatch e = false) → select links = links.take 10) := by
  constructor
  · rintro ⟨e, he, hm⟩
    simp only [select]
    rw [if_neg]
    intro hnil
    rw [List.filter_eq_nil_iff] at hnil
    exact hnil e he (by simp [hm])
  · intro hall
    simp only [select]
    rw [if_pos]
    rw [List.filter_eq_nil_iff]
    intro a ha
    simp [hall a ha]

/-- Witness for C3: one matching link is retained alone; a list with no
matching link falls back to its first 10 (here, all) links. -/
theorem C3_selector_witness :
    select [("Edital A".toList, "http://a".toList), ("Foo".toList, "http://b".toList)]
      = [("Edital A".toList, "http://a".toList)] ∧
    select [("Foo".toList, "http://b".toList), ("Bar".toList, "http://c".toList)]
      = [("Foo".toList, "http://b".toList), ("Bar".toList, "http://c".toList)] := by
  constructor
  · rw [(C3_selector _).1 ⟨("Edital A".toList, "http://a".toList), by decide, by decide⟩]
    decide
  · rw [(C3_selector _).2 (by decide)]
    decide

/-- Fixed-width hex depends only on the value modulo `16 ^ width`. -/
theorem hexN_mod (w : Nat) : ∀ n, hexN w n = hexN w (n % 16 ^ w) := by
  induction w with
  | zero => intro n; rfl
  | succ w ih =>
    intro n
    simp only [hexN]
    have h1 : n % 16 ^ (w + 1) / 16 = n / 16 % 16 ^ w := by
      rw [pow_succ']
      exact Nat.mod_mul_right_div_self n 16 (16 ^ w)
    have h2 : n % 16 ^ (w + 1) % 16 = n % 16 := by
      apply Nat.mod_mod_of_dvd
      exact dvd_pow_self 16 (Nat.succ_ne_zero w)
    rw [h2, h1, ← ih (n / 16)]

/-- The hex digest has only `2 ^ 256` possible values while texts are
infinitely many, so two distinct texts share a digest. -/
theorem sha_collision : ∃ a b : List Char, a ≠ b ∧ sha a = sha b := by
  have hfin : (0 : Nat) < 2 ^ 256 := by positivity
  obtain ⟨a, b, hne, heq⟩ := Finite.exists_ne_map_eq_of_infinite
    (fun s : List Char => (⟨digestNat s % 2 ^ 256, Nat.mod_lt _ hfin⟩ : Fin (2 ^ 256)))
  refine ⟨a, b, hne, ?_⟩
  have h : digestNat a % 2 ^ 256 = digestNat b % 2 ^ 256 := congrArg Fin.val heq
  show hexN 64 (digestNat a) = hexN 64 (digestNat b)
  rw [hexN_mod 64 (digestNat a), hexN_mod 64 (digestNat b)]
  rw [show (16 : Nat) ^ 64 = 2 ^ 256 from by norm_num]
  rw [h]

/-- C10 counterexample: the fingerprint is not content-sensitive in the
universal sense — it is impossible that distinct texts always get distinct
digests, because the 64-hex-digit digests form a finite set while the
texts do not (pigeonhole). -/
theorem C10_fingerprint_not_injective :
    ¬ (∀ a b : List Char, a ≠ b → sha a ≠ sha b) := by
  intro hinj
  obtain ⟨a, b, hne, heq⟩ := sha_collision
  exact hinj a b hne heq

/-- C10 (amended): the fingerprint is deterministic — equal inputs give
equal digests — but universal content-sensitivity fails: some two distinct
texts collide.  Collision-freedom can only hold practically, not for all
strings. -/
theorem C10_fingerprint_deterministic :
    (∀ a : List Char, sha a = sha a) ∧
    (∃ a b : List Char, a ≠ b ∧ sha a = sha b) :=
  ⟨fun _ => rfl, sha_collision⟩

/-- C1: a source whose fetched page hashes to the recorded fingerprint is
skipped entirely — no report items, no expired count, the whole `seen`
state (so in particular that source's record) unchanged — and the source
loop behaves as if the source were absent. -/
theorem C1_unchanged_fingerprint_skips (env : Env)
    (seen : List (List Char × SeenRecord)) (s : Source) (html : List Char)
    (hfetch : env.fetchPage s.url = .ok html)
    (hfp : getFp seen s.url = some (sha html)) :
    processSource env seen s = (seen, [], 0) ∧
    ∀ rest : List Source,
      runSources env (s :: rest) seen = runSources env rest seen := by
  have h1 : processSource env seen s = (seen, [], 0) := by
    simp only [processSource, hfetch]
    rw [if_pos hfp]
  refine ⟨h1, fun rest => ?_⟩
  rw [runSources, h1]
  rcases hr : runSources env rest seen with ⟨s2, it2, k2⟩
  simp [hr]

/-- Witness for C1: a source whose stored fingerprint is the hash of the
fetched page leaves the state record untouched and yields nothing. -/
theorem C1_unchanged_fingerprint_skips_witness :
    processSource
      ⟨fun _ => .ok "h".toList, fun _ _ => [], id, fun _ => "[]".toList,
        ⟨2025, 1, 1⟩, [], []⟩
      [("u".toList, ⟨some (sha "h".toList), none, none⟩)]
      ⟨"n".toList, "u".toList⟩
      = ([("u".toList, ⟨some (sha "h".toList), none, none⟩)], [], 0) :=
  (C1_unchanged_fingerprint_skips
    ⟨fun _ => .ok "h".toList, fun _ _ => [], id, fun _ => "[]".toList,
      ⟨2025, 1, 1⟩, [], []⟩
    [("u".toList, ⟨some (sha "h".toList), none, none⟩)]
    ⟨"n".toList, "u".toList⟩ "h".toList rfl rfl).1

/-- C2: report items can only arise when both the fingerprint and the
candidate signature differ from the recorded values; and when the
fingerprint differs but the signature is unchanged, the record still gets
the new fingerprint and timestamp (the signature staying equal) while no
items are emitted. -/
theorem C2_signature_gate (env : Env) (seen : List (List Char × SeenRecord))
    (s : Source) (html : List Char)
    (hfetch : env.fetchPage s.url = .ok html) :
    ((processSource env seen s).2.1 ≠ [] →
        getFp seen s.url ≠ some (sha html) ∧
        getSig seen s.url
          ≠ some (sha (env.jsonDumps (select (env.extractLinks html s.url))))) ∧
    (getFp seen s.url ≠ some (sha html) →
      getSig seen s.url
        = some (sha (env.jsonDumps (select (env.extractLinks html s.url)))) →
      processSource env seen s
        = (setSeen seen s.url
            ⟨some (sha html),
             some (sha (env.jsonDumps (select (env.extractLinks html s.url)))),
             some env.nowIso⟩, [], 0)) := by
  by_cases hfp : getFp seen s.url = some (sha html)
  · constructor
    · intro hne
      exfalso
      apply hne
      simp only [processSource, hfetch]
      rw [if_pos hfp]
    · intro hfp2 _
      exact absurd hfp hfp2
  · by_cases hsig : getSig seen s.url
        = some (sha (env.jsonDumps (select (env.extractLinks html s.url))))
    · constructor
      · intro hne
        exfalso
        apply hne
        simp only [processSource, hfetch]
        rw [if_neg hfp, if_pos hsig]
      · intro _ _
        simp only [processSource, hfetch]
        rw [if_neg hfp, if_pos hsig]
    · constructor
      · intro _
        exact ⟨hfp, hsig⟩
      · intro _ h2
        exact absurd h2 hsig

/-- Witness for C2: a changed page whose candidate signature is unchanged
refreshes the record's fingerprint and timestamp and emits no items. -/
theorem C2_signature_gate_witness :
    processSource
      ⟨fun _ => .ok "h".toList, fun _ _ => [], id, fun _ => "[]".toList,
        ⟨2025, 1, 1⟩, [], "T".toList⟩
      [("u".toList, ⟨none, some (sha "[]".toList), none⟩)]
      ⟨"n".toList, "u".toList⟩
      = ([("u".toList,
           ⟨some (sha "h".toList), some (sha "[]".toList), some "T".toList⟩)],
         [], 0) := by
  have h := (C2_signature_gate
    ⟨fun _ => .ok "h".toList, fun _ _ => [], id, fun _ => "[]".toList,
      ⟨2025, 1, 1⟩, [], "T".toList⟩
    [("u".toList, ⟨none, some (sha "[]".toList), none⟩)]
    ⟨"n".toList, "u".toList⟩ "h".toList rfl).2
    (fun hcon => Option.noConfusion hcon) rfl
  rw [h]
  rfl

/-- C8: a fetch failure for a source is converted into exactly one report
item carrying the error's class name and message, the `seen` state is left
unchanged (records are written only on success), and the loop continues
with the remaining sources. -/
theorem C8_source_error_item (env : Env) (seen : List (List Char × SeenRecord))
    (s : Source) (e : PyErr)
    (hfetch : env.fetchPage s.url = .error e) :
    processSource env seen s = (seen, [sourceErrItem s e], 0) ∧
    ∀ rest : List Source,
      (runSources env (s :: rest) seen).1 = (runSources env rest seen).1 ∧
      (runSources env (s :: rest) seen).2.1
        = sourceErrItem s e :: (runSources env rest seen).2.1 ∧
      (runSources env (s :: rest) seen).2.2 = (runSources env rest seen).2.2 := by
  have h1 : processSource env seen s = (seen, [sourceErrItem s e], 0) := by
    simp only [processSource, hfetch]
  refine ⟨h1, fun rest => ?_⟩
  have h2 : runSources env (s :: rest) seen
      = ((runSources env rest seen).1,
         sourceErrItem s e :: (runSources env rest seen).2.1,
         (runSources env rest seen).2.2) := by
    rw [runSources, h1]
    rcases hr : runSources env rest seen with ⟨s2, it2, k2⟩
    simp [hr]
  rw [h2]
  exact ⟨rfl, rfl, rfl⟩

/-- Witness for C8: a failing source yields the single error item naming
the exception class and message, with the state untouched. -/
theorem C8_source_error_item_witness :
    processSource
      ⟨fun _ => .error ⟨"ConnectionError".toList, "boom".toList⟩,
        fun _ _ => [], id, fun _ => "[]".toList, ⟨2025, 1, 1⟩, [], []⟩
      [] ⟨"n".toList, "u".toList⟩
      = ([], [("n".toList, "⚠️ Erro ao verificar fonte".toList,
          "u | ConnectionError: boom".toList)], 0) := by
  have h := (C8_source_error_item
    ⟨fun _ => .error ⟨"ConnectionError".toList, "boom".toList⟩,
      fun _ _ => [], id, fun _ => "[]".toList, ⟨2025, 1, 1⟩, [], []⟩
    [] ⟨"n".toList, "u".toList⟩
    ⟨"ConnectionError".toList, "boom".toList⟩ rfl).1
  rw [h]
  rfl

/-- C9: every run attempts exactly one outbound notification — the digest
when any items were accumulated, the heartbeat otherwise; the digest lists
at most the first 20 items, with an expired-count footer exactly when the
counter is nonzero, and the heartbeat carries its expired-count suffix
exactly when the counter is nonzero. -/
theorem C9_one_notification (env : Env) (sources : List Source)
    (seen0 : List (List Char × SeenRecord)) :
    (mainRun env sources seen0).2.length = 1 ∧
    ((runSources env sources seen0).2.1 ≠ [] →
      (mainRun env sources seen0).2
        = [digestMsg env (runSources env sources seen0).2.1
            (runSources env sources seen0).2.2]) ∧
    ((runSources env sources seen0).2.1 = [] →
      (mainRun env sources seen0).2
        = [heartbeatMsg env (runSources env sources seen0).2.2]) ∧
    (∀ (items : List Item) (skipped : Nat), digestMsg env items skipped
        = digestMsg env (items.take 20) skipped) ∧
    (∀ items : List Item, digestMsg env items 0
        = joinNL (("🔎 Novidades detectadas (".toList ++ env.nowStr
            ++ ")".toList) :: [] :: (items.take 20).map itemLine)) ∧
    (∀ (items : List Item) (skipped : Nat), skipped ≠ 0 →
      digestMsg env items skipped
        = joinNL (("🔎 Novidades detectadas (".toList ++ env.nowStr
            ++ ")".toList) :: [] :: ((items.take 20).map itemLine
          ++ [[], "🧹 Filtrados por prazo vencido: ".toList
              ++ natToStr skipped]))) ∧
    heartbeatMsg env 0
      = "✅ Monitor rodou (".toList ++ env.nowStr
          ++ ") e não encontrou novidades nas fontes.".toList ∧
    (∀ skipped : Nat, skipped ≠ 0 →
      heartbeatMsg env skipped
        = "✅ Monitor rodou (".toList ++ env.nowStr
            ++ ") e não encontrou novidades nas fontes.".toList
            ++ " | filtrados vencidos: ".toList ++ natToStr skipped) := by
  refine ⟨rfl, ?_, ?_, ?_, ?_, ?_, ?_, ?_⟩
  · intro h
    simp only [mainRun]
    rw [if_neg h]
  · intro h
    simp only [mainRun]
    rw [if_pos h]
  · intro items skipped
    simp [digestMsg, List.take_take]
  · intro items
    simp [digestMsg]
  · intro items skipped h
    simp only [digestMsg]
    rw [if_pos h]
  · simp [heartbeatMsg]
  · intro skipped h
    simp only [heartbeatMsg]
    rw [if_pos h]
    simp [List.append_assoc]

/-- Witness for C9: a run over no sources sends exactly the heartbeat. -/
theorem C9_one_notification_witness :
    (mainRun ⟨fun _ => .ok [], fun _ _ => [], id, fun _ => "[]".toList,
        ⟨2025, 1, 1⟩, [], []⟩ [] []).2
      = [heartbeatMsg ⟨fun _ => .ok [], fun _ _ => [], id,
          fun _ => "[]".toList, ⟨2025, 1, 1⟩, [], []⟩ 0] :=
  (C9_one_notification _ [] []).2.2.1 rfl

/-- C6: `pick_deadline`, applied to the collection of dates extracted from
a text, returns the maximum date of the collection whenever it is
non-empty, and returns none when the collection is empty. -/
theorem C6_pick_deadline_max (t : List Char) :
    (parse_deadlines t = [] → pick_deadline t = none) ∧
    (parse_deadlines t ≠ [] →
      ∃ d, pick_deadline t = some d ∧ d ∈ parse_deadlines t ∧
        ∀ e ∈ parse_deadlines t, dateLe e d) := by
  constructor
  · intro h; simp [pick_deadline, h]
  · intro h
    rcases hp : parse_deadlines t with _ | ⟨d, ds⟩
    · exact absurd hp h
    · obtain ⟨h1, h2, h3⟩ := foldlMax_spec ds d
      refine ⟨ds.foldl (fun x y => if dateLt x y then y else x) d,
        by simp [pick_deadline, hp], ?_, ?_⟩
      · rcases h1 with h1 | h1
        · rw [h1]; exact List.mem_cons_self _ _
        · exact List.mem_cons_of_mem _ h1
      · intro e he
        rcases List.mem_cons.mp he with rfl | he
        · exact h2
        · exact h3 e he

/-- Witness for C6 on the spec's example collection
{2026-01-05, 2026-01-31, 2025-12-01}: the maximum 2026-01-31 is picked. -/
theorem C6_pick_deadline_max_witness :
    parse_deadlines "xx 1/12/2025 e 5/1/2026 e 31/1/2026".toList ≠ [] ∧
    (∃ d, pick_deadline "xx 1/12/2025 e 5/1/2026 e 31/1/2026".toList = some d ∧
      d ∈ parse_deadlines "xx 1/12/2025 e 5/1/2026 e 31/1/2026".toList ∧
      ∀ e ∈ parse_deadlines "xx 1/12/2025 e 5/1/2026 e 31/1/2026".toList,
        dateLe e d) :=
  ⟨by decide, (C6_pick_deadline_max _).2 (by decide)⟩

/-! ### Claim C7: expiry is strict comparison at day granularity -/

/-- C7: `is_expired d today` is true exactly when `d` is strictly earlier
than `today`; a deadline equal to today is not expired; and the spec's two
concrete instances hold. -/
theorem C7_is_expired_strict :
    (∀ d today, is_expired d today = true ↔ dateLt d today) ∧
    (∀ d, is_expired d d = false) ∧
    is_expired ⟨2020, 1, 1⟩ ⟨2025, 1, 1⟩ = true ∧
    is_expired ⟨2099, 1, 1⟩ ⟨2025, 1, 1⟩ = false := by
  refine ⟨fun d today => by simp [is_expired], fun d => ?_, by decide, by decide⟩
  obtain ⟨x1, x2, x3⟩ := d
  simp [is_expired, dateLt]

/-- Witness for C7 at the spec's concrete instance. -/
theorem C7_is_expired_strict_witness :
    is_expired ⟨2020, 1, 1⟩ ⟨2025, 1, 1⟩ = true :=
  C7_is_expired_strict.2.2.1

end Monitor
